import Mathlib

/-!
Verification development for the schooling/steering simulation core of the
aquarium repository.  The main model follows `aquarium3d/simulation.py`
(`GoldfishSimulator`); a second model follows the wall-bounce part of
`python_sim/simulation.py` (`AquariumSimulation`).  Python floats are
modelled as real numbers; the injectable random source (`random.Random`,
`np.random`) is modelled as an infinite stream `u : Nat -> Real` of draws in
`[0, 1)` together with a cursor that each sampling call advances.
-/

namespace Aquarium

/-- Ordered triple of reals, mirroring the `Vector3` type alias. -/
@[ext] structure Vec3 where
  x : ℝ
  y : ℝ
  z : ℝ

instance : Inhabited Vec3 := ⟨⟨0, 0, 0⟩⟩

/-- Mirrors `_vec_add`. -/
def vecAdd (a b : Vec3) : Vec3 := ⟨a.x + b.x, a.y + b.y, a.z + b.z⟩

/-- Mirrors `_vec_sub`. -/
def vecSub (a b : Vec3) : Vec3 := ⟨a.x - b.x, a.y - b.y, a.z - b.z⟩

/-- Mirrors `_vec_scale`. -/
def vecScale (v : Vec3) (s : ℝ) : Vec3 := ⟨v.x * s, v.y * s, v.z * s⟩

/-- Mirrors `_vec_length`. -/
noncomputable def vecLength (v : Vec3) : ℝ :=
  Real.sqrt (v.x * v.x + v.y * v.y + v.z * v.z)

/-- Mirrors `_vec_dot`. -/
def vecDot (a b : Vec3) : ℝ := a.x * b.x + a.y * b.y + a.z * b.z

/-- Mirrors `_vec_normalize` (returns the zero vector when the length is 0). -/
noncomputable def vecNormalize (v : Vec3) : Vec3 :=
  if vecLength v = 0 then ⟨0, 0, 0⟩
  else ⟨v.x / vecLength v, v.y / vecLength v, v.z / vecLength v⟩

/-- Mirrors `_vec_cross`. -/
def vecCross (a b : Vec3) : Vec3 :=
  ⟨a.y * b.z - a.z * b.y, a.z * b.x - a.x * b.z, a.x * b.y - a.y * b.x⟩

/-- Row-major 3x3 matrix, mirroring the `Matrix3` tuple-of-rows alias. -/
structure Mat3 where
  r0 : Vec3
  r1 : Vec3
  r2 : Vec3

instance : Inhabited Mat3 := ⟨⟨⟨0, 0, 0⟩, ⟨0, 0, 0⟩, ⟨0, 0, 0⟩⟩⟩

/-- Mirrors `_orientation_from_direction`. -/
noncomputable def orientationFromDirection (direction : Vec3) : Mat3 :=
  let forward := vecNormalize direction
  let up0 : Vec3 := ⟨0, 0, 1⟩
  let up1 := if |vecDot up0 forward| > 0.9 then (⟨0, 1, 0⟩ : Vec3) else up0
  let right := vecNormalize (vecCross forward up1)
  let up2 := vecNormalize (vecCross right forward)
  ⟨⟨forward.x, right.x, up2.x⟩, ⟨forward.y, right.y, up2.y⟩,
    ⟨forward.z, right.z, up2.z⟩⟩

/-- Mirrors the `FishState` dataclass of `aquarium3d/simulation.py`. -/
structure FishState where
  position : Vec3
  velocity : Vec3
  orientation : Mat3
  scale : ℝ
  phase : ℝ

instance : Inhabited FishState := ⟨⟨default, default, default, 0, 0⟩⟩

/-- Python float modulo `x % m` (sign follows the divisor), used for the phase. -/
noncomputable def pyMod (x m : ℝ) : ℝ := x - m * (⌊x / m⌋ : ℤ)

/-- Mirrors `_random_direction`: consumes two draws (`uniform(0, 2*pi)` and
`uniform(-1, 1)`, each `a + (b - a) * random()`). -/
noncomputable def randomDirection (u : ℕ → ℝ) (k : ℕ) : Vec3 × ℕ :=
  let phi := 0 + (2 * Real.pi - 0) * u k
  let costheta := -1 + (1 - (-1)) * u (k + 1)
  let sintheta := Real.sqrt (max 0 (1 - costheta * costheta))
  (⟨Real.cos phi * sintheta, Real.sin phi * sintheta, costheta⟩, k + 2)

/-- Mirrors `_slerp`. -/
noncomputable def slerp (a b : Vec3) (t : ℝ) : Vec3 :=
  let d := max (-1) (min 1 (vecDot a b))
  if d > 0.9995 then
    vecNormalize (vecAdd (vecScale a (1 - t)) (vecScale b t))
  else
    let theta := Real.arccos d
    let sinTheta := Real.sin theta
    let factorA := Real.sin ((1 - t) * theta) / sinTheta
    let factorB := Real.sin (t * theta) / sinTheta
    vecAdd (vecScale a factorA) (vecScale b factorB)

/-- Constructor arguments of `GoldfishSimulator.__init__` (immutable after
construction; `fish_count` is a Python `int`, hence `ℤ`). -/
structure Config where
  fish_count : ℤ
  tank : Vec3
  min_speed : ℝ
  max_speed : ℝ
  turn_rate : ℝ
  cohesion : ℝ
  separation_distance : ℝ
  separation_strength : ℝ
  surface_damping : ℝ

/-- Mutable state of a `GoldfishSimulator`: the agent list and the cursor of
the injected random stream. -/
structure SimState where
  fish : List FishState
  k : ℕ

/-- Mirrors `GoldfishSimulator._spawn_fish` (eight draws in source order:
three position coordinates, two for the heading, speed, scale, phase). -/
noncomputable def spawnFish (cfg : Config) (u : ℕ → ℝ) (k : ℕ) : FishState × ℕ :=
  let pos : Vec3 := ⟨(u k - 0.5) * cfg.tank.x, (u (k + 1) - 0.5) * cfg.tank.y,
    (u (k + 2) - 0.5) * cfg.tank.z⟩
  let hr := randomDirection u (k + 3)
  let heading := hr.1
  let speed := cfg.min_speed + (cfg.max_speed - cfg.min_speed) * u (k + 5)
  let velocity := vecScale heading speed
  let orientation := orientationFromDirection heading
  let scale := 0.8 + (1.2 - 0.8) * u (k + 6)
  let phase := u (k + 7) * (2 * Real.pi)
  (⟨pos, velocity, orientation, scale, phase⟩, k + 8)

/-- The spawn loop `for _ in range(fish_count)` of `__init__`. -/
noncomputable def spawnMany (cfg : Config) (u : ℕ → ℝ) :
    ℕ → ℕ → List FishState × ℕ
  | 0, k => ([], k)
  | n + 1, k =>
    let r := spawnFish cfg u k
    let rr := spawnMany cfg u n r.2
    (r.1 :: rr.1, rr.2)

/-- Mirrors `GoldfishSimulator.__init__`: no argument validation is performed;
`range(fish_count)` spawns `max fish_count 0` agents. -/
noncomputable def goldfishInit (cfg : Config) (u : ℕ → ℝ) : SimState :=
  let r := spawnMany cfg u cfg.fish_count.toNat 0
  ⟨r.1, r.2⟩

/-- Centroid of all agent positions (`center` in `step`), a mean per axis. -/
noncomputable def centroid (fs : List FishState) : Vec3 :=
  ⟨((fs.map fun f => f.position.x).sum) / (fs.length : ℝ),
   ((fs.map fun f => f.position.y).sum) / (fs.length : ℝ),
   ((fs.map fun f => f.position.z).sum) / (fs.length : ℝ)⟩

/-- Cohesion direction: `center - position`, normalized only when its length
is positive (otherwise kept as computed). -/
noncomputable def cohesionDir (center pos : Vec3) : Vec3 :=
  let c := vecSub center pos
  let l := vecLength c
  if l > 0 then vecScale c (1 / l) else c

/-- Inner separation loop of `step`: walks the flock with running index `j`,
skipping the agent itself (`j == idx`) and every neighbor whose distance is
not strictly between `1e-6` and `separation_distance`. -/
noncomputable def sepFold (cfg : Config) (idx : ℕ) (pos : Vec3) :
    List FishState → ℕ → Vec3 → Vec3
  | [], _, acc => acc
  | o :: rest, j, acc =>
    let acc2 :=
      if j = idx then acc
      else
        let diff := vecSub pos o.position
        let dist := vecLength diff
        if 1e-6 < dist ∧ dist < cfg.separation_distance then
          vecAdd acc (vecScale diff (1 / dist))
        else acc
    sepFold cfg idx pos rest (j + 1) acc2

/-- Separation vector accumulated over the whole (pre-step) flock. -/
noncomputable def separationVec (cfg : Config) (fs : List FishState) (idx : ℕ)
    (pos : Vec3) : Vec3 :=
  sepFold cfg idx pos fs 0 ⟨0, 0, 0⟩

/-- Per-axis wall handling of `step`: only when the agent already sits
strictly beyond the limit and keeps moving outward is the desired component
reversed and damped by `-0.8`; the position is never touched. -/
noncomputable def bounceComponent (limit pos comp : ℝ) : ℝ :=
  if pos < -limit ∧ comp < 0 then -0.8 * comp
  else if pos > limit ∧ comp > 0 then -0.8 * comp
  else comp

/-- The `for axis in range(3)` wall loop applied to the desired direction. -/
noncomputable def applyBounds (cfg : Config) (pos d : Vec3) : Vec3 :=
  ⟨bounceComponent (cfg.tank.x * 0.5) pos.x d.x,
   bounceComponent (cfg.tank.y * 0.5) pos.y d.y,
   bounceComponent (cfg.tank.z * 0.5) pos.z d.z⟩

/-- Surface damping: above `0.4 * tank_z` the upward desired component is
reduced by `surface_damping * |d_z|`. -/
noncomputable def applySurface (cfg : Config) (pos d : Vec3) : Vec3 :=
  if pos.z > cfg.tank.z * 0.4 then
    ⟨d.x, d.y, d.z - cfg.surface_damping * |d.z|⟩
  else d

/-- Raw desired direction of one agent before normalization: current velocity
plus weighted cohesion, separation and recentering terms, then wall and
surface corrections. -/
noncomputable def desiredRaw (cfg : Config) (center : Vec3)
    (fs : List FishState) (idx : ℕ) (fish : FishState) : Vec3 :=
  let d1 := vecAdd fish.velocity (vecScale (cohesionDir center fish.position) cfg.cohesion)
  let d2 := vecAdd d1 (vecScale (separationVec cfg fs idx fish.position) cfg.separation_strength)
  let d3 := vecAdd d2 (vecScale fish.position (-0.1))
  applySurface cfg fish.position (applyBounds cfg fish.position d3)

/-- Normalization / stall-recovery branch of `step`: a desired vector shorter
than `1e-6` is replaced by a freshly sampled random heading at `min_speed`
(consuming two draws); otherwise it is normalized and its length clamped into
`[min_speed, max_speed]`. -/
noncomputable def desiredDirSpeed (cfg : Config) (u : ℕ → ℝ) (k : ℕ)
    (d : Vec3) : Vec3 × ℝ × ℕ :=
  let s := vecLength d
  if s < 1e-6 then
    let r := randomDirection u k
    (r.1, cfg.min_speed, r.2)
  else
    (vecScale d (1 / s), max cfg.min_speed (min cfg.max_speed s), k)

/-- Update of a single agent inside `step`, reading only the pre-step flock
snapshot `fs`, the pre-step centroid `center` and the random stream cursor. -/
noncomputable def stepOne (cfg : Config) (u : ℕ → ℝ) (dt : ℝ) (center : Vec3)
    (fs : List FishState) (idx : ℕ) (fish : FishState) (k : ℕ) : FishState × ℕ :=
  let d := desiredRaw cfg center fs idx fish
  let r := desiredDirSpeed cfg u k d
  let currentDir := vecNormalize fish.velocity
  let newDir := slerp currentDir r.1 (min 1 (cfg.turn_rate * dt))
  let newVelocity := vecScale newDir r.2.1
  let newPosition := vecAdd fish.position (vecScale newVelocity dt)
  let newOrientation := orientationFromDirection newDir
  let newPhase := pyMod (fish.phase + r.2.1 * dt * 1.8) (2 * Real.pi)
  (⟨newPosition, newVelocity, newOrientation, fish.scale, newPhase⟩, r.2.2)

/-- The per-agent loop of `step`, building the `updated` list in order while
threading the random stream cursor. -/
noncomputable def stepAgents (cfg : Config) (u : ℕ → ℝ) (dt : ℝ) (center : Vec3)
    (pre : List FishState) : List FishState → ℕ → ℕ → List FishState × ℕ
  | [], _, k => ([], k)
  | f :: rest, idx, k =>
    let r := stepOne cfg u dt center pre idx f k
    let rr := stepAgents cfg u dt center pre rest (idx + 1) r.2
    (r.1 :: rr.1, rr.2)

/-- Mirrors `GoldfishSimulator.step(dt)`: returns unchanged on an empty flock,
otherwise computes the centroid of the pre-step snapshot once and replaces the
agent list with the per-agent updates. -/
noncomputable def step (cfg : Config) (u : ℕ → ℝ) (dt : ℝ) (s : SimState) : SimState :=
  match s.fish with
  | [] => s
  | _ :: _ =>
    let center := centroid s.fish
    let r := stepAgents cfg u dt center s.fish s.fish 0 s.k
    ⟨r.1, r.2⟩

/-- Mirrors `GoldfishSimulator.states()` (a fresh list of the current states). -/
def states (s : SimState) : List FishState := s.fish

/-- A whole run: fold `step` over a list of `dt` arguments. -/
noncomputable def runSteps (cfg : Config) (u : ℕ → ℝ) (dts : List ℝ)
    (s : SimState) : SimState :=
  dts.foldl (fun st dt => step cfg u dt st) s

/-- Snapshot after constructing from a configuration and seed stream and
stepping through `dts`. -/
noncomputable def statesAfter (cfg : Config) (u : ℕ → ℝ) (dts : List ℝ) :
    List FishState := states (runSteps cfg u dts (goldfishInit cfg u))

end Aquarium

namespace PySim

open Aquarium

/-- Mirrors the `FishState` dataclass of `python_sim/simulation.py`. -/
structure PFish where
  position : Vec3
  velocity : Vec3
  yaw : ℝ
  pitch : ℝ
  roll : ℝ
  swim_phase : ℝ
  scale : ℝ

instance : Inhabited PFish := ⟨⟨default, default, 0, 0, 0, 0, 0⟩⟩

/-- Mutable state of an `AquariumSimulation`: tank size, agents, clock, and
the cursor of the injected `np.random` stream. -/
structure PSim where
  tank_size : Vec3
  fish : List PFish
  time : ℝ
  k : ℕ

/-- Two-argument arctangent as computed by `math.atan2` (real semantics,
ignoring signed zeros). -/
noncomputable def atan2 (y x : ℝ) : ℝ :=
  if 0 < x then Real.arctan (y / x)
  else if x < 0 then
    (if 0 ≤ y then Real.arctan (y / x) + Real.pi else Real.arctan (y / x) - Real.pi)
  else if 0 < y then Real.pi / 2
  else if y < 0 then -(Real.pi / 2)
  else 0

/-- Mirrors `AquariumSimulation._wander_force`: three jitter draws, a
recentering force and a vertical oscillation. -/
noncomputable def wanderForce (u : ℕ → ℝ) (k : ℕ) (time : ℝ) (fish : PFish) :
    Vec3 × ℕ :=
  let jitter : Vec3 := ⟨(u k - 0.5) * 0.12, (u (k + 1) - 0.5) * 0.08,
    (u (k + 2) - 0.5) * 0.1⟩
  let centerForce := vecScale fish.position (-0.3)
  let vertical := Real.sin (time * 0.3 + fish.swim_phase) * 0.06 - fish.position.y * 0.12
  (vecAdd (vecAdd centerForce jitter) ⟨0, vertical, 0⟩, k + 3)

/-- One axis of the hard clamp-and-bounce loop of `AquariumSimulation.step`:
positions beyond the limit are clamped to it and the axis velocity is scaled
by `-0.85`. -/
noncomputable def clampAxis (limit p v : ℝ) : ℝ × ℝ :=
  if p > limit then (limit, v * (-0.85))
  else if p < -limit then (-limit, v * (-0.85))
  else (p, v)

/-- Velocity after the wander-force integration (`velocity += desired * dt`). -/
noncomputable def pVel1 (u : ℕ → ℝ) (k : ℕ) (dt time : ℝ) (fish : PFish) : Vec3 :=
  vecAdd fish.velocity (vecScale (wanderForce u k time fish).1 dt)

/-- The clipped speed `np.clip(norm(velocity), 0.05, 0.35)`. -/
noncomputable def pSpeed (u : ℕ → ℝ) (k : ℕ) (dt time : ℝ) (fish : PFish) : ℝ :=
  min (max (vecLength (pVel1 u k dt time fish)) 0.05) 0.35

/-- Velocity after the rescale `(velocity / (speed + 1e-6)) * speed` (note the
source reassigns `speed` to its clipped value before dividing, so the factor
is `clip(s) / (clip(s) + 1e-6)`, not a hard clamp of the magnitude). -/
noncomputable def pVel2 (u : ℕ → ℝ) (k : ℕ) (dt time : ℝ) (fish : PFish) : Vec3 :=
  vecScale (vecScale (pVel1 u k dt time fish) (1 / (pSpeed u k dt time fish + 1e-6)))
    (pSpeed u k dt time fish)

/-- Update of a single agent inside `AquariumSimulation.step`: wander force,
speed rescale by `clip(speed) / (clip(speed) + 1e-6)`, position integration,
per-axis clamp/bounce, then the derived orientation angles and phase. -/
noncomputable def pStepOne (tank : Vec3) (u : ℕ → ℝ) (dt time : ℝ)
    (fish : PFish) (k : ℕ) : PFish × ℕ :=
  let w := wanderForce u k time fish
  let v2 := pVel2 u k dt time fish
  let p1 := vecAdd fish.position (vecScale v2 dt)
  let cx := clampAxis (tank.x / 2) p1.x v2.x
  let cy := clampAxis (tank.y / 2) p1.y v2.y
  let cz := clampAxis (tank.z / 2) p1.z v2.z
  let v3 : Vec3 := ⟨cx.2, cy.2, cz.2⟩
  let yaw := atan2 v3.z v3.x
  let pitch := -(atan2 v3.y (max 1e-5 (Real.sqrt (v3.x * v3.x + v3.z * v3.z))))
  let roll := Real.sin (time * 0.6 + fish.swim_phase) * 0.1
  let ph := pyMod (fish.swim_phase + dt * 4.0) (2 * Real.pi)
  (⟨⟨cx.1, cy.1, cz.1⟩, v3, yaw, pitch, roll, ph, fish.scale⟩, w.2)

/-- The per-agent loop of `AquariumSimulation.step` (each agent reads only its
own state and the shared clock), threading the random stream cursor. -/
noncomputable def pStepList (tank : Vec3) (u : ℕ → ℝ) (dt time : ℝ) :
    List PFish → ℕ → List PFish × ℕ
  | [], k => ([], k)
  | f :: rest, k =>
    let r := pStepOne tank u dt time f k
    let rr := pStepList tank u dt time rest r.2
    (r.1 :: rr.1, rr.2)

/-- Mirrors `AquariumSimulation.step(dt)` (state part: agents and clock). -/
noncomputable def pStep (u : ℕ → ℝ) (dt : ℝ) (s : PSim) : PSim :=
  let r := pStepList s.tank_size u dt s.time s.fish s.k
  ⟨s.tank_size, r.1, s.time + dt, r.2⟩

end PySim

namespace Aquarium

/-- Stream whose every draw is `1/2`. -/
noncomputable def uHalf : ℕ → ℝ := fun _ => 1 / 2

/-- Stream with first draw `0` and all later draws `1/2`; it makes
`_random_direction` return the unit vector `(1, 0, 0)`. -/
noncomputable def uZeroHalf : ℕ → ℝ := fun n => if n = 0 then 0 else 1 / 2

/-- Cube tank of half-extent 1 with a pinched speed band `[1, 1]` and unit
turn rate (other weights at their source defaults). -/
noncomputable def cfgA : Config :=
  { fish_count := 1, tank := ⟨2, 2, 2⟩, min_speed := 1, max_speed := 1,
    turn_rate := 1, cohesion := 0.2, separation_distance := 0.18,
    separation_strength := 0.5, surface_damping := 0.4 }

/-- Source-default weights with a half-extent-2 cube tank, for the
coincident-flock scenario. -/
noncomputable def cfg7 : Config :=
  { fish_count := 10, tank := ⟨4, 4, 4⟩, min_speed := 0.25, max_speed := 0.55,
    turn_rate := 1.2217, cohesion := 0.2, separation_distance := 0.18,
    separation_strength := 0.5, surface_damping := 0.4 }

/-- Configuration with a negative agent count (invalid per the spec). -/
noncomputable def cfgBad : Config :=
  { fish_count := -1, tank := ⟨2, 2, 2⟩, min_speed := 1, max_speed := 1,
    turn_rate := 1, cohesion := 0.2, separation_distance := 0.18,
    separation_strength := 0.5, surface_damping := 0.4 }

/-- Configuration with zero agents. -/
noncomputable def cfgZero : Config :=
  { fish_count := 0, tank := ⟨2, 2, 2⟩, min_speed := 1, max_speed := 1,
    turn_rate := 1, cohesion := 0.2, separation_distance := 0.18,
    separation_strength := 0.5, surface_damping := 0.4 }

/-- Agent at the tank center with zero velocity. -/
noncomputable def fishStill : FishState := ⟨⟨0, 0, 0⟩, ⟨0, 0, 0⟩, default, 1, 0⟩

/-- Agent at the tank center moving along `+x` at unit speed. -/
noncomputable def fishRight : FishState := ⟨⟨0, 0, 0⟩, ⟨1, 0, 0⟩, default, 1, 0⟩

/-- Agent exactly on the `+x` boundary of `cfgA`, moving outward. -/
noncomputable def fishEdge : FishState := ⟨⟨1, 0, 0⟩, ⟨1, 0, 0⟩, default, 1, 0⟩

/-- Agent strictly inside `cfgA` near the `+x` wall, moving outward. -/
noncomputable def fishNear : FishState := ⟨⟨0.9, 0, 0⟩, ⟨1, 0, 0⟩, default, 1, 0⟩

/-- Agent at `(1, 0, 0)` with zero velocity, for the coincident flock. -/
noncomputable def fishC7 : FishState := ⟨⟨1, 0, 0⟩, ⟨0, 0, 0⟩, default, 1, 0⟩

/-- Flock of ten coincident agents. -/
noncomputable def fs10 : List FishState := List.replicate 10 fishC7

end Aquarium

namespace PySim

open Aquarium

/-- Single `python_sim` agent on the `+x` boundary of a half-extent-1 cube. -/
noncomputable def pfishW : PFish := ⟨⟨1, 0, 0⟩, ⟨0.3, 0, 0⟩, 0, 0, 0, 0, 1⟩

/-- `python_sim` state holding just `pfishW`. -/
noncomputable def psimW : PSim := ⟨⟨2, 2, 2⟩, [pfishW], 0, 0⟩

end PySim

namespace Aquarium

theorem vecLength_nonneg (v : Vec3) : 0 ≤ vecLength v := Real.sqrt_nonneg _

theorem sumsq_nonneg (v : Vec3) : 0 ≤ v.x * v.x + v.y * v.y + v.z * v.z := by
  nlinarith [mul_self_nonneg v.x, mul_self_nonneg v.y, mul_self_nonneg v.z]

theorem vecLength_scale (v : Vec3) (s : ℝ) :
    vecLength (vecScale v s) = |s| * vecLength v := by
  simp only [vecLength, vecScale]
  rw [show v.x * s * (v.x * s) + v.y * s * (v.y * s) + v.z * s * (v.z * s)
      = (s * s) * (v.x * v.x + v.y * v.y + v.z * v.z) by ring,
    Real.sqrt_mul (mul_self_nonneg s), Real.sqrt_mul_self_eq_abs]

theorem vecLength_zeroVec : vecLength ⟨0, 0, 0⟩ = 0 := by
  simp [vecLength]

theorem vecLength_axis (a : ℝ) : vecLength ⟨a, 0, 0⟩ = |a| := by
  simp only [vecLength]
  rw [show a * a + 0 * 0 + 0 * 0 = a * a by ring, Real.sqrt_mul_self_eq_abs]

theorem unit_dot {a : Vec3} (ha : vecLength a = 1) : vecDot a a = 1 := by
  have := Real.sqrt_eq_one.mp ha
  simpa [vecDot] using this

theorem vec_cauchy (a b : Vec3) : |vecDot a b| ≤ vecLength a * vecLength b := by
  have hq : vecDot a b * vecDot a b ≤
      (a.x * a.x + a.y * a.y + a.z * a.z) * (b.x * b.x + b.y * b.y + b.z * b.z) := by
    simp only [vecDot]
    nlinarith [sq_nonneg (a.x * b.y - a.y * b.x), sq_nonneg (a.x * b.z - a.z * b.x),
      sq_nonneg (a.y * b.z - a.z * b.y)]
  have h1 : |vecDot a b| = Real.sqrt (vecDot a b * vecDot a b) :=
    (Real.sqrt_mul_self_eq_abs _).symm
  rw [h1]
  simp only [vecLength]
  rw [← Real.sqrt_mul (sumsq_nonneg a)]
  exact Real.sqrt_le_sqrt hq

theorem vecNormalize_unit {v : Vec3} (h : vecLength v = 1) : vecNormalize v = v := by
  simp only [vecNormalize, h]
  norm_num

theorem vecNormalize_length {v : Vec3} (h : vecLength v ≠ 0) :
    vecLength (vecNormalize v) = 1 := by
  have hpos : 0 < vecLength v := lt_of_le_of_ne (vecLength_nonneg v) (Ne.symm h)
  have hs : vecNormalize v = vecScale v (1 / vecLength v) := by
    simp only [vecNormalize, if_neg h, vecScale]
    ext <;> simp <;> ring
  rw [hs, vecLength_scale, abs_of_pos (one_div_pos.mpr hpos), one_div, inv_mul_cancel₀ h]

theorem randomDirection_length (u : ℕ → ℝ) (k : ℕ)
    (hu : ∀ n, 0 ≤ u n ∧ u n ≤ 1) :
    vecLength (randomDirection u k).1 = 1 := by
  simp only [randomDirection, vecLength]
  set c : ℝ := -1 + (1 - (-1)) * u (k + 1) with hc
  have hc1 : -1 ≤ c := by have := (hu (k + 1)).1; simp only [hc]; nlinarith
  have hc2 : c ≤ 1 := by have := (hu (k + 1)).2; simp only [hc]; nlinarith
  have hnn : (0 : ℝ) ≤ 1 - c * c := by nlinarith
  have hmax : max 0 (1 - c * c) = 1 - c * c := max_eq_right hnn
  set phi : ℝ := 0 + (2 * Real.pi - 0) * u k with hphi
  have hs : Real.sqrt (max 0 (1 - c * c)) * Real.sqrt (max 0 (1 - c * c)) = 1 - c * c := by
    rw [hmax]; exact Real.mul_self_sqrt hnn
  have htrig := Real.sin_sq_add_cos_sq phi
  have harg : Real.cos phi * Real.sqrt (max 0 (1 - c * c)) *
        (Real.cos phi * Real.sqrt (max 0 (1 - c * c))) +
      Real.sin phi * Real.sqrt (max 0 (1 - c * c)) *
        (Real.sin phi * Real.sqrt (max 0 (1 - c * c))) + c * c = 1 := by
    nlinarith [hs, htrig]
  rw [harg, Real.sqrt_one]

theorem slerp_same {a : Vec3} (ha : vecLength a = 1) (t : ℝ) : slerp a a t = a := by
  have hd : vecDot a a = 1 := unit_dot ha
  have hclamp : max (-1 : ℝ) (min 1 (vecDot a a)) = 1 := by rw [hd]; norm_num
  simp only [slerp, hclamp]
  rw [if_pos (by norm_num)]
  have hblend : vecAdd (vecScale a (1 - t)) (vecScale a t) = a := by
    simp only [vecAdd, vecScale]; ext <;> simp <;> ring
  rw [hblend, vecNormalize_unit ha]

theorem dot_bounds {a b : Vec3} (ha : vecLength a = 1) (hb : vecLength b = 1) :
    -1 ≤ vecDot a b ∧ vecDot a b ≤ 1 := by
  have := vec_cauchy a b
  rw [ha, hb] at this
  constructor <;> [exact (abs_le.mp (by simpa using this)).1;
    exact (abs_le.mp (by simpa using this)).2]

theorem slerp_zero {a b : Vec3} (ha : vecLength a = 1) (hb : vecLength b = 1)
    (hdot : vecDot a b ≠ -1) : slerp a b 0 = a := by
  obtain ⟨h2, h1⟩ := dot_bounds ha hb
  have hclamp : max (-1 : ℝ) (min 1 (vecDot a b)) = vecDot a b := by
    rw [min_eq_right h1, max_eq_right h2]
  have hlt : -1 < vecDot a b := lt_of_le_of_ne h2 (Ne.symm hdot)
  simp only [slerp, hclamp]
  by_cases hgt : vecDot a b > 0.9995
  · rw [if_pos hgt]
    have hblend : vecAdd (vecScale a (1 - 0)) (vecScale b 0) = a := by
      simp only [vecAdd, vecScale]; ext <;> simp
    rw [hblend, vecNormalize_unit ha]
  · rw [if_neg hgt]
    have hle : vecDot a b ≤ 0.9995 := not_lt.mp hgt
    have hsin : Real.sin (Real.arccos (vecDot a b)) =
        Real.sqrt (1 - vecDot a b ^ 2) := Real.sin_arccos _
    have hpos : 0 < Real.sin (Real.arccos (vecDot a b)) := by
      rw [hsin]; apply Real.sqrt_pos.mpr; nlinarith
    have hne : Real.sin (Real.arccos (vecDot a b)) ≠ 0 := ne_of_gt hpos
    ext
    · simp only [vecAdd, vecScale]
      rw [show ((1 : ℝ) - 0) * Real.arccos (vecDot a b) = Real.arccos (vecDot a b) by ring]
      rw [show (0 : ℝ) * Real.arccos (vecDot a b) = 0 by ring, Real.sin_zero,
        div_self hne, zero_div]
      ring
    · simp only [vecAdd, vecScale]
      rw [show ((1 : ℝ) - 0) * Real.arccos (vecDot a b) = Real.arccos (vecDot a b) by ring]
      rw [show (0 : ℝ) * Real.arccos (vecDot a b) = 0 by ring, Real.sin_zero,
        div_self hne, zero_div]
      ring
    · simp only [vecAdd, vecScale]
      rw [show ((1 : ℝ) - 0) * Real.arccos (vecDot a b) = Real.arccos (vecDot a b) by ring]
      rw [show (0 : ℝ) * Real.arccos (vecDot a b) = 0 by ring, Real.sin_zero,
        div_self hne, zero_div]
      ring

theorem slerp_one {a b : Vec3} (ha : vecLength a = 1) (hb : vecLength b = 1)
    (hdot : vecDot a b ≠ -1) : slerp a b 1 = b := by
  obtain ⟨h2, h1⟩ := dot_bounds ha hb
  have hclamp : max (-1 : ℝ) (min 1 (vecDot a b)) = vecDot a b := by
    rw [min_eq_right h1, max_eq_right h2]
  have hlt : -1 < vecDot a b := lt_of_le_of_ne h2 (Ne.symm hdot)
  simp only [slerp, hclamp]
  by_cases hgt : vecDot a b > 0.9995
  · rw [if_pos hgt]
    have hblend : vecAdd (vecScale a (1 - 1)) (vecScale b 1) = b := by
      simp only [vecAdd, vecScale]; ext <;> simp
    rw [hblend, vecNormalize_unit hb]
  · rw [if_neg hgt]
    have hle : vecDot a b ≤ 0.9995 := not_lt.mp hgt
    have hsin : Real.sin (Real.arccos (vecDot a b)) =
        Real.sqrt (1 - vecDot a b ^ 2) := Real.sin_arccos _
    have hpos : 0 < Real.sin (Real.arccos (vecDot a b)) := by
      rw [hsin]; apply Real.sqrt_pos.mpr; nlinarith
    have hne : Real.sin (Real.arccos (vecDot a b)) ≠ 0 := ne_of_gt hpos
    ext
    · simp only [vecAdd, vecScale]
      rw [show ((1 : ℝ) - 1) * Real.arccos (vecDot a b) = 0 by ring,
        show (1 : ℝ) * Real.arccos (vecDot a b) = Real.arccos (vecDot a b) by ring,
        Real.sin_zero, div_self hne, zero_div]
      ring
    · simp only [vecAdd, vecScale]
      rw [show ((1 : ℝ) - 1) * Real.arccos (vecDot a b) = 0 by ring,
        show (1 : ℝ) * Real.arccos (vecDot a b) = Real.arccos (vecDot a b) by ring,
        Real.sin_zero, div_self hne, zero_div]
      ring
    · simp only [vecAdd, vecScale]
      rw [show ((1 : ℝ) - 1) * Real.arccos (vecDot a b) = 0 by ring,
        show (1 : ℝ) * Real.arccos (vecDot a b) = Real.arccos (vecDot a b) by ring,
        Real.sin_zero, div_self hne, zero_div]
      ring

end Aquarium

namespace Aquarium

theorem slerp_identity_aux (θ t : ℝ) :
    Real.sin ((1 - t) * θ) * Real.sin ((1 - t) * θ)
      + Real.sin (t * θ) * Real.sin (t * θ)
      + 2 * (Real.sin ((1 - t) * θ) * Real.sin (t * θ)) * Real.cos θ
    = Real.sin θ * Real.sin θ := by
  rw [show (1 - t) * θ = θ - t * θ by ring, Real.sin_sub]
  have h2 := Real.sin_sq_add_cos_sq (t * θ)
  have h3 := Real.sin_sq_add_cos_sq θ
  linear_combination (Real.sin θ * Real.sin θ) * h2
    - (Real.sin (t * θ) * Real.sin (t * θ)) * h3

theorem slerp_length {a b : Vec3} {t : ℝ} (ha : vecLength a = 1)
    (hb : vecLength b = 1) (ht0 : 0 ≤ t) (ht1 : t ≤ 1)
    (hdot : vecDot a b ≠ -1) : vecLength (slerp a b t) = 1 := by
  obtain ⟨h2, h1⟩ := dot_bounds ha hb
  have hlt : -1 < vecDot a b := lt_of_le_of_ne h2 (Ne.symm hdot)
  have hclamp : max (-1 : ℝ) (min 1 (vecDot a b)) = vecDot a b := by
    rw [min_eq_right h1, max_eq_right h2]
  have hAA : a.x * a.x + a.y * a.y + a.z * a.z = 1 := Real.sqrt_eq_one.mp ha
  have hBB : b.x * b.x + b.y * b.y + b.z * b.z = 1 := Real.sqrt_eq_one.mp hb
  have hd : vecDot a b = a.x * b.x + a.y * b.y + a.z * b.z := rfl
  simp only [slerp, hclamp]
  by_cases hgt : vecDot a b > 0.9995
  · rw [if_pos hgt]
    apply vecNormalize_length
    have hdpos : (0 : ℝ) ≤ vecDot a b := by linarith
    have hQ : 0 < (a.x * (1 - t) + b.x * t) * (a.x * (1 - t) + b.x * t)
        + (a.y * (1 - t) + b.y * t) * (a.y * (1 - t) + b.y * t)
        + (a.z * (1 - t) + b.z * t) * (a.z * (1 - t) + b.z * t) := by
      have hexp : (a.x * (1 - t) + b.x * t) * (a.x * (1 - t) + b.x * t)
          + (a.y * (1 - t) + b.y * t) * (a.y * (1 - t) + b.y * t)
          + (a.z * (1 - t) + b.z * t) * (a.z * (1 - t) + b.z * t)
          = (1 - t) * (1 - t) * (a.x * a.x + a.y * a.y + a.z * a.z)
            + t * t * (b.x * b.x + b.y * b.y + b.z * b.z)
            + 2 * ((1 - t) * t) * (a.x * b.x + a.y * b.y + a.z * b.z) := by ring
      rw [hexp, hAA, hBB, ← hd]
      have htt : 0 ≤ (1 - t) * t := mul_nonneg (by linarith) ht0
      nlinarith [sq_nonneg (1 - 2 * t), mul_nonneg htt hdpos]
    have hlen : vecLength (vecAdd (vecScale a (1 - t)) (vecScale b t))
        = Real.sqrt ((a.x * (1 - t) + b.x * t) * (a.x * (1 - t) + b.x * t)
          + (a.y * (1 - t) + b.y * t) * (a.y * (1 - t) + b.y * t)
          + (a.z * (1 - t) + b.z * t) * (a.z * (1 - t) + b.z * t)) := rfl
    rw [hlen]
    exact ne_of_gt (Real.sqrt_pos.mpr hQ)
  · rw [if_neg hgt]
    have hle : vecDot a b ≤ 0.9995 := not_lt.mp hgt
    set S : ℝ := Real.sin (Real.arccos (vecDot a b)) with hS
    set A : ℝ := Real.sin ((1 - t) * Real.arccos (vecDot a b)) with hA
    set B : ℝ := Real.sin (t * Real.arccos (vecDot a b)) with hB
    have hsinpos : 0 < S := by
      rw [hS, Real.sin_arccos]
      exact Real.sqrt_pos.mpr (by nlinarith)
    have hsne : S ≠ 0 := ne_of_gt hsinpos
    have hcos : Real.cos (Real.arccos (vecDot a b)) = vecDot a b :=
      Real.cos_arccos h2 h1
    have key : A * A + B * B + 2 * (A * B) * vecDot a b = S * S := by
      have hiden := slerp_identity_aux (Real.arccos (vecDot a b)) t
      rw [← hA, ← hB, ← hS] at hiden
      linear_combination hiden - 2 * A * B * hcos
    have hexpand : (a.x * (A / S) + b.x * (B / S)) * (a.x * (A / S) + b.x * (B / S))
        + (a.y * (A / S) + b.y * (B / S)) * (a.y * (A / S) + b.y * (B / S))
        + (a.z * (A / S) + b.z * (B / S)) * (a.z * (A / S) + b.z * (B / S))
        = (A * A * (a.x * a.x + a.y * a.y + a.z * a.z)
            + B * B * (b.x * b.x + b.y * b.y + b.z * b.z)
            + 2 * (A * B) * (a.x * b.x + a.y * b.y + a.z * b.z)) / (S * S) := by
      field_simp
      ring
    have hsum : (a.x * (A / S) + b.x * (B / S)) * (a.x * (A / S) + b.x * (B / S))
        + (a.y * (A / S) + b.y * (B / S)) * (a.y * (A / S) + b.y * (B / S))
        + (a.z * (A / S) + b.z * (B / S)) * (a.z * (A / S) + b.z * (B / S)) = 1 := by
      rw [hexpand, hAA, hBB, ← hd, mul_one, mul_one, key]
      exact div_self (mul_ne_zero hsne hsne)
    have hlen : vecLength (vecAdd (vecScale a (A / S)) (vecScale b (B / S)))
        = Real.sqrt ((a.x * (A / S) + b.x * (B / S)) * (a.x * (A / S) + b.x * (B / S))
          + (a.y * (A / S) + b.y * (B / S)) * (a.y * (A / S) + b.y * (B / S))
          + (a.z * (A / S) + b.z * (B / S)) * (a.z * (A / S) + b.z * (B / S))) := rfl
    rw [hlen, hsum, Real.sqrt_one]

end Aquarium

namespace Aquarium

theorem vecNormalize_zeroVec : vecNormalize ⟨0, 0, 0⟩ = ⟨0, 0, 0⟩ := by
  simp only [vecNormalize, vecLength_zeroVec]
  norm_num

theorem abs_x_le_length (v : Vec3) : |v.x| ≤ vecLength v := by
  rw [← Real.sqrt_mul_self_eq_abs]
  exact Real.sqrt_le_sqrt (by nlinarith [mul_self_nonneg v.y, mul_self_nonneg v.z])

theorem abs_y_le_length (v : Vec3) : |v.y| ≤ vecLength v := by
  rw [← Real.sqrt_mul_self_eq_abs]
  exact Real.sqrt_le_sqrt (by nlinarith [mul_self_nonneg v.x, mul_self_nonneg v.z])

theorem abs_z_le_length (v : Vec3) : |v.z| ≤ vecLength v := by
  rw [← Real.sqrt_mul_self_eq_abs]
  exact Real.sqrt_le_sqrt (by nlinarith [mul_self_nonneg v.x, mul_self_nonneg v.y])

theorem desiredDirSpeed_speed (cfg : Config) (u : ℕ → ℝ) (k : ℕ) (d : Vec3)
    (hle : cfg.min_speed ≤ cfg.max_speed) :
    cfg.min_speed ≤ (desiredDirSpeed cfg u k d).2.1 ∧
      (desiredDirSpeed cfg u k d).2.1 ≤ cfg.max_speed := by
  simp only [desiredDirSpeed]
  by_cases h : vecLength d < 1e-6
  · rw [if_pos h]
    exact ⟨le_refl _, hle⟩
  · rw [if_neg h]
    refine ⟨le_max_left _ _, max_le hle (min_le_left _ _)⟩

theorem desiredDirSpeed_unit (cfg : Config) (u : ℕ → ℝ) (k : ℕ) (d : Vec3)
    (hu : ∀ n, 0 ≤ u n ∧ u n ≤ 1) :
    vecLength (desiredDirSpeed cfg u k d).1 = 1 := by
  simp only [desiredDirSpeed]
  by_cases h : vecLength d < 1e-6
  · rw [if_pos h]
    exact randomDirection_length u k hu
  · rw [if_neg h]
    have hne : vecLength d ≠ 0 := by
      intro h0
      rw [h0] at h
      norm_num at h
    have hpos : 0 < vecLength d := lt_of_le_of_ne (vecLength_nonneg d) (Ne.symm hne)
    show vecLength (vecScale d (1 / vecLength d)) = 1
    rw [vecLength_scale, abs_of_pos (one_div_pos.mpr hpos), one_div,
      inv_mul_cancel₀ hne]

theorem stepOne_velocity (cfg : Config) (u : ℕ → ℝ) (dt : ℝ) (center : Vec3)
    (fs : List FishState) (idx : ℕ) (fish : FishState) (k : ℕ) :
    (stepOne cfg u dt center fs idx fish k).1.velocity
      = vecScale (slerp (vecNormalize fish.velocity)
          (desiredDirSpeed cfg u k (desiredRaw cfg center fs idx fish)).1
          (min 1 (cfg.turn_rate * dt)))
        (desiredDirSpeed cfg u k (desiredRaw cfg center fs idx fish)).2.1 := rfl

theorem stepOne_position (cfg : Config) (u : ℕ → ℝ) (dt : ℝ) (center : Vec3)
    (fs : List FishState) (idx : ℕ) (fish : FishState) (k : ℕ) :
    (stepOne cfg u dt center fs idx fish k).1.position
      = vecAdd fish.position
          (vecScale ((stepOne cfg u dt center fs idx fish k).1.velocity) dt) := rfl

theorem stepOne_speed (cfg : Config) (u : ℕ → ℝ) (dt : ℝ) (center : Vec3)
    (fs : List FishState) (idx : ℕ) (fish : FishState) (k : ℕ)
    (hmin : 0 < cfg.min_speed) (hle : cfg.min_speed ≤ cfg.max_speed)
    (ht : 0 ≤ cfg.turn_rate * dt)
    (hu : ∀ n, 0 ≤ u n ∧ u n ≤ 1)
    (hv : vecLength fish.velocity ≠ 0)
    (hnot : vecDot (vecNormalize fish.velocity)
        (desiredDirSpeed cfg u k (desiredRaw cfg center fs idx fish)).1 ≠ -1) :
    cfg.min_speed ≤ vecLength ((stepOne cfg u dt center fs idx fish k).1.velocity) ∧
      vecLength ((stepOne cfg u dt center fs idx fish k).1.velocity) ≤ cfg.max_speed := by
  obtain ⟨hs1, hs2⟩ := desiredDirSpeed_speed cfg u k
    (desiredRaw cfg center fs idx fish) hle
  have hcur : vecLength (vecNormalize fish.velocity) = 1 := vecNormalize_length hv
  have hdd : vecLength (desiredDirSpeed cfg u k (desiredRaw cfg center fs idx fish)).1 = 1 :=
    desiredDirSpeed_unit cfg u k _ hu
  have htt0 : 0 ≤ min 1 (cfg.turn_rate * dt) := le_min (by norm_num) ht
  have htt1 : min 1 (cfg.turn_rate * dt) ≤ 1 := min_le_left _ _
  have hslerp : vecLength (slerp (vecNormalize fish.velocity)
      (desiredDirSpeed cfg u k (desiredRaw cfg center fs idx fish)).1
      (min 1 (cfg.turn_rate * dt))) = 1 :=
    slerp_length hcur hdd htt0 htt1 hnot
  rw [stepOne_velocity, vecLength_scale, hslerp, mul_one,
    abs_of_pos (lt_of_lt_of_le hmin hs1)]
  exact ⟨hs1, hs2⟩

theorem stepAgents_nil (cfg : Config) (u : ℕ → ℝ) (dt : ℝ) (center : Vec3)
    (pre : List FishState) (idx k : ℕ) :
    stepAgents cfg u dt center pre [] idx k = ([], k) := rfl

theorem stepAgents_cons (cfg : Config) (u : ℕ → ℝ) (dt : ℝ) (center : Vec3)
    (pre : List FishState) (f : FishState) (rest : List FishState) (idx k : ℕ) :
    stepAgents cfg u dt center pre (f :: rest) idx k
      = ((stepOne cfg u dt center pre idx f k).1 ::
          (stepAgents cfg u dt center pre rest (idx + 1)
            (stepOne cfg u dt center pre idx f k).2).1,
         (stepAgents cfg u dt center pre rest (idx + 1)
            (stepOne cfg u dt center pre idx f k).2).2) := rfl

theorem stepAgents_length (cfg : Config) (u : ℕ → ℝ) (dt : ℝ) (center : Vec3)
    (pre : List FishState) :
    ∀ (l : List FishState) (idx k : ℕ),
      (stepAgents cfg u dt center pre l idx k).1.length = l.length := by
  intro l
  induction l with
  | nil => intro idx k; rfl
  | cons f rest ih =>
    intro idx k
    rw [stepAgents_cons]
    simp [ih]

theorem mem_stepAgents (cfg : Config) (u : ℕ → ℝ) (dt : ℝ) (center : Vec3)
    (pre : List FishState) :
    ∀ (l : List FishState) (idx k : ℕ) (g : FishState),
      g ∈ (stepAgents cfg u dt center pre l idx k).1 →
      ∃ f ∈ l, ∃ i k2, g = (stepOne cfg u dt center pre i f k2).1 := by
  intro l
  induction l with
  | nil =>
    intro idx k g hg
    rw [stepAgents_nil] at hg
    exact absurd hg (List.not_mem_nil g)
  | cons f rest ih =>
    intro idx k g hg
    rw [stepAgents_cons] at hg
    rcases List.mem_cons.mp hg with h | h
    · exact ⟨f, List.mem_cons_self f rest, idx, k, h⟩
    · obtain ⟨f2, hf2, i, k2, he⟩ := ih _ _ _ h
      exact ⟨f2, List.mem_cons_of_mem _ hf2, i, k2, he⟩

theorem get_stepAgents (cfg : Config) (u : ℕ → ℝ) (dt : ℝ) (center : Vec3)
    (pre : List FishState) :
    ∀ (l : List FishState) (idx k i : ℕ) (hi : i < l.length),
      ∃ k2, (stepAgents cfg u dt center pre l idx k).1.get? i
        = some ((stepOne cfg u dt center pre (idx + i) (l.get ⟨i, hi⟩) k2).1) := by
  intro l
  induction l with
  | nil => intro idx k i hi; exact absurd hi (by simp)
  | cons f rest ih =>
    intro idx k i hi
    cases i with
    | zero => exact ⟨k, by rw [stepAgents_cons]; simp⟩
    | succ n =>
      obtain ⟨k2, hk2⟩ := ih (idx + 1)
        (stepOne cfg u dt center pre idx f k).2 n (by simpa using hi)
      refine ⟨k2, ?_⟩
      rw [stepAgents_cons]
      have hplus : idx + 1 + n = idx + (n + 1) := by omega
      simp only [List.get?_cons_succ, List.get_cons_succ]
      rw [hk2, hplus]

theorem step_empty (cfg : Config) (u : ℕ → ℝ) (dt : ℝ) (s : SimState)
    (h : s.fish = []) : step cfg u dt s = s := by
  cases s with
  | mk fs k =>
    cases fs with
    | nil => rfl
    | cons f rest => exact absurd h (by simp)

theorem step_cons (cfg : Config) (u : ℕ → ℝ) (dt : ℝ) (f : FishState)
    (rest : List FishState) (k : ℕ) :
    step cfg u dt ⟨f :: rest, k⟩
      = ⟨(stepAgents cfg u dt (centroid (f :: rest)) (f :: rest) (f :: rest) 0 k).1,
         (stepAgents cfg u dt (centroid (f :: rest)) (f :: rest) (f :: rest) 0 k).2⟩ := rfl

theorem sum_map_const {fs : List FishState} {g : FishState → ℝ} {c : ℝ}
    (h : ∀ f ∈ fs, g f = c) : (fs.map g).sum = fs.length * c := by
  induction fs with
  | nil => simp
  | cons f rest ih =>
    simp only [List.map_cons, List.sum_cons, List.length_cons]
    rw [h f (List.mem_cons_self f rest),
      ih (fun f2 hf2 => h f2 (List.mem_cons_of_mem _ hf2))]
    push_cast
    ring

theorem centroid_const {fs : List FishState} {p : Vec3} (hne : fs ≠ [])
    (h : ∀ f ∈ fs, f.position = p) : centroid fs = p := by
  have hlen : fs.length ≠ 0 := by
    intro h0
    exact hne (List.length_eq_zero.mp h0)
  have hn : (fs.length : ℝ) ≠ 0 := Nat.cast_ne_zero.mpr hlen
  have hx : (fs.map fun f => f.position.x).sum = fs.length * p.x :=
    sum_map_const (fun f hf => by rw [h f hf])
  have hy : (fs.map fun f => f.position.y).sum = fs.length * p.y :=
    sum_map_const (fun f hf => by rw [h f hf])
  have hz : (fs.map fun f => f.position.z).sum = fs.length * p.z :=
    sum_map_const (fun f hf => by rw [h f hf])
  simp only [centroid, hx, hy, hz]
  ext
  · exact mul_div_cancel_left₀ _ hn
  · exact mul_div_cancel_left₀ _ hn
  · exact mul_div_cancel_left₀ _ hn

theorem centroid_singleton (f : FishState) : centroid [f] = f.position :=
  centroid_const (by simp) (by simp)

theorem sepFold_coincident (cfg : Config) (idx : ℕ) (p : Vec3) :
    ∀ (l : List FishState) (j : ℕ) (acc : Vec3), (∀ f ∈ l, f.position = p) →
      sepFold cfg idx p l j acc = acc := by
  intro l
  induction l with
  | nil => intro j acc h; rfl
  | cons o rest ih =>
    intro j acc h
    have ho : o.position = p := h o (List.mem_cons_self _ _)
    have htail : ∀ f ∈ rest, f.position = p :=
      fun f hf => h f (List.mem_cons_of_mem _ hf)
    have hsub : vecSub p o.position = ⟨0, 0, 0⟩ := by
      rw [ho]; simp [vecSub]
    simp only [sepFold, hsub, vecLength_zeroVec]
    have hcond : ¬((1e-6 : ℝ) < 0 ∧ (0 : ℝ) < cfg.separation_distance) := by
      intro hc
      norm_num at hc
    rw [if_neg hcond]
    by_cases hj : j = idx
    · rw [if_pos hj]
      exact ih (j + 1) acc htail
    · rw [if_neg hj]
      exact ih (j + 1) acc htail

theorem separationVec_coincident (cfg : Config) (idx : ℕ) (p : Vec3)
    (fs : List FishState) (h : ∀ f ∈ fs, f.position = p) :
    separationVec cfg fs idx p = ⟨0, 0, 0⟩ :=
  sepFold_coincident cfg idx p fs 0 ⟨0, 0, 0⟩ h

theorem spawnMany_length (cfg : Config) (u : ℕ → ℝ) :
    ∀ (n k : ℕ), (spawnMany cfg u n k).1.length = n := by
  intro n
  induction n with
  | zero => intro k; rfl
  | succ m ih =>
    intro k
    show ((spawnFish cfg u k).1 :: (spawnMany cfg u m (spawnFish cfg u k).2).1).length = m + 1
    simp [ih]

end Aquarium

namespace Aquarium

theorem cohesionDir_self (p : Vec3) : cohesionDir p p = ⟨0, 0, 0⟩ := by
  have hsub : vecSub p p = ⟨0, 0, 0⟩ := by simp [vecSub]
  simp only [cohesionDir, hsub, vecLength_zeroVec]
  norm_num

theorem bounceComponent_inside {limit pos : ℝ} (comp : ℝ) (h1 : -limit ≤ pos)
    (h2 : pos ≤ limit) : bounceComponent limit pos comp = comp := by
  unfold bounceComponent
  rw [if_neg (fun hc => absurd hc.1 (not_lt.mpr h1)),
    if_neg (fun hc => absurd hc.1 (not_lt.mpr h2))]

theorem applyBounds_inside (cfg : Config) {pos : Vec3} (d : Vec3)
    (hx : |pos.x| ≤ cfg.tank.x * 0.5) (hy : |pos.y| ≤ cfg.tank.y * 0.5)
    (hz : |pos.z| ≤ cfg.tank.z * 0.5) : applyBounds cfg pos d = d := by
  obtain ⟨hx1, hx2⟩ := abs_le.mp hx
  obtain ⟨hy1, hy2⟩ := abs_le.mp hy
  obtain ⟨hz1, hz2⟩ := abs_le.mp hz
  unfold applyBounds
  rw [bounceComponent_inside _ hx1 hx2, bounceComponent_inside _ hy1 hy2,
    bounceComponent_inside _ hz1 hz2]

theorem applySurface_below (cfg : Config) {pos : Vec3} (d : Vec3)
    (h : pos.z ≤ cfg.tank.z * 0.4) : applySurface cfg pos d = d := by
  unfold applySurface
  rw [if_neg (not_lt.mpr h)]

theorem desiredRaw_coincident (cfg : Config) (fs : List FishState) (p : Vec3)
    (idx : ℕ) (f : FishState) (hf : f.position = p)
    (hall : ∀ g ∈ fs, g.position = p) (hne : fs ≠ []) :
    desiredRaw cfg (centroid fs) fs idx f
      = applySurface cfg p (applyBounds cfg p
          ⟨f.velocity.x + p.x * (-0.1), f.velocity.y + p.y * (-0.1),
           f.velocity.z + p.z * (-0.1)⟩) := by
  simp only [desiredRaw]
  rw [hf, centroid_const hne hall, cohesionDir_self,
    separationVec_coincident cfg idx p fs hall]
  have hd3 : vecAdd (vecAdd (vecAdd f.velocity
      (vecScale ⟨0, 0, 0⟩ cfg.cohesion)) (vecScale ⟨0, 0, 0⟩ cfg.separation_strength))
      (vecScale p (-0.1))
      = (⟨f.velocity.x + p.x * (-0.1), f.velocity.y + p.y * (-0.1),
          f.velocity.z + p.z * (-0.1)⟩ : Vec3) := by
    simp [vecAdd, vecScale]
  rw [hd3]

theorem vecLength_e1 : vecLength ⟨1, 0, 0⟩ = 1 := by
  rw [vecLength_axis]; norm_num

theorem normalize_e1 : vecNormalize ⟨1, 0, 0⟩ = ⟨1, 0, 0⟩ :=
  vecNormalize_unit vecLength_e1

theorem dds_axis (k : ℕ) (c : ℝ) (h1 : 1e-6 ≤ c) (h2 : c ≤ 1) :
    desiredDirSpeed cfgA uHalf k ⟨c, 0, 0⟩ = (⟨1, 0, 0⟩, 1, k) := by
  have hc0 : (0 : ℝ) < c := by linarith [show (0:ℝ) < 1e-6 by norm_num]
  have hlen : vecLength ⟨c, 0, 0⟩ = c := by
    rw [vecLength_axis]; exact abs_of_pos hc0
  simp only [desiredDirSpeed, hlen]
  rw [if_neg (not_lt.mpr h1)]
  have hmm : max cfgA.min_speed (min cfgA.max_speed c) = 1 := by
    simp only [cfgA]
    rw [min_eq_right h2, max_eq_left h2]
  rw [hmm]
  have hv : vecScale ⟨c, 0, 0⟩ (1 / c) = (⟨1, 0, 0⟩ : Vec3) := by
    ext
    · show c * (1 / c) = 1
      field_simp
    · show 0 * (1 / c) = 0
      ring
    · show 0 * (1 / c) = 0
      ring
  rw [hv]

theorem randDir_uZeroHalf : (randomDirection uZeroHalf 0).1 = ⟨1, 0, 0⟩ := by
  simp only [randomDirection, uZeroHalf]
  norm_num

theorem slerp_still : slerp ⟨0, 0, 0⟩ ⟨1, 0, 0⟩ (1 / 3) = ⟨1 / 2, 0, 0⟩ := by
  have hdot : vecDot ⟨0, 0, 0⟩ ⟨1, 0, 0⟩ = 0 := by simp [vecDot]
  have hclamp : max (-1 : ℝ) (min 1 (vecDot ⟨0, 0, 0⟩ ⟨1, 0, 0⟩)) = 0 := by
    rw [hdot]; norm_num
  simp only [slerp, hclamp]
  rw [if_neg (by norm_num), Real.arccos_zero, Real.sin_pi_div_two]
  have h6 : (1 / 3 : ℝ) * (Real.pi / 2) = Real.pi / 6 := by ring
  rw [h6, Real.sin_pi_div_six]
  ext <;> simp [vecAdd, vecScale]

end Aquarium

namespace Aquarium

theorem desiredRaw_fishEdge (idx : ℕ) :
    desiredRaw cfgA (centroid [fishEdge]) [fishEdge] idx fishEdge = ⟨0.9, 0, 0⟩ := by
  rw [desiredRaw_coincident cfgA [fishEdge] ⟨1, 0, 0⟩ idx fishEdge rfl
    (fun g hg => by rw [List.mem_singleton.mp hg]; rfl) (by simp)]
  rw [applyBounds_inside cfgA _ (by norm_num [cfgA, abs_le]) (by norm_num [cfgA, abs_le])
    (by norm_num [cfgA, abs_le])]
  rw [applySurface_below cfgA _ (by norm_num [cfgA])]
  ext <;> norm_num [fishEdge]

theorem desiredRaw_fishNear (idx : ℕ) :
    desiredRaw cfgA (centroid [fishNear]) [fishNear] idx fishNear = ⟨0.91, 0, 0⟩ := by
  rw [desiredRaw_coincident cfgA [fishNear] ⟨0.9, 0, 0⟩ idx fishNear rfl
    (fun g hg => by rw [List.mem_singleton.mp hg]; rfl) (by simp)]
  rw [applyBounds_inside cfgA _ (by norm_num [cfgA, abs_le]) (by norm_num [cfgA, abs_le])
    (by norm_num [cfgA, abs_le])]
  rw [applySurface_below cfgA _ (by norm_num [cfgA])]
  ext <;> norm_num [fishNear]

theorem desiredRaw_fishStill (idx : ℕ) :
    desiredRaw cfgA (centroid [fishStill]) [fishStill] idx fishStill = ⟨0, 0, 0⟩ := by
  rw [desiredRaw_coincident cfgA [fishStill] ⟨0, 0, 0⟩ idx fishStill rfl
    (fun g hg => by rw [List.mem_singleton.mp hg]; rfl) (by simp)]
  rw [applyBounds_inside cfgA _ (by norm_num [cfgA, abs_le]) (by norm_num [cfgA, abs_le])
    (by norm_num [cfgA, abs_le])]
  rw [applySurface_below cfgA _ (by norm_num [cfgA])]
  ext <;> simp [fishStill]

theorem desiredRaw_fishRight (idx : ℕ) :
    desiredRaw cfgA (centroid [fishRight]) [fishRight] idx fishRight = ⟨1, 0, 0⟩ := by
  rw [desiredRaw_coincident cfgA [fishRight] ⟨0, 0, 0⟩ idx fishRight rfl
    (fun g hg => by rw [List.mem_singleton.mp hg]; rfl) (by simp)]
  rw [applyBounds_inside cfgA _ (by norm_num [cfgA, abs_le]) (by norm_num [cfgA, abs_le])
    (by norm_num [cfgA, abs_le])]
  rw [applySurface_below cfgA _ (by norm_num [cfgA])]
  ext <;> simp [fishRight]

theorem desiredRaw_fishC7 (idx : ℕ) :
    desiredRaw cfg7 (centroid fs10) fs10 idx fishC7 = ⟨-0.1, 0, 0⟩ := by
  rw [desiredRaw_coincident cfg7 fs10 ⟨1, 0, 0⟩ idx fishC7 rfl
    (fun g hg => by rw [List.eq_of_mem_replicate hg]; rfl) (by simp [fs10])]
  rw [applyBounds_inside cfg7 _ (by norm_num [cfg7, abs_le]) (by norm_num [cfg7, abs_le])
    (by norm_num [cfg7, abs_le])]
  rw [applySurface_below cfg7 _ (by norm_num [cfg7])]
  ext <;> simp [fishC7]

theorem step_single_eval (cfg : Config) (u : ℕ → ℝ) (dt : ℝ) (f : FishState)
    (k : ℕ) : (step cfg u dt ⟨[f], k⟩).fish
      = [(stepOne cfg u dt (centroid [f]) [f] 0 f k).1] := by
  rw [step_cons]
  show (stepAgents cfg u dt (centroid [f]) [f] [f] 0 k).1 = _
  simp only [stepAgents_cons, stepAgents_nil]

theorem stepOne_fishEdge_velocity :
    (stepOne cfgA uHalf (1 / 2) (centroid [fishEdge]) [fishEdge] 0 fishEdge 0).1.velocity
      = ⟨1, 0, 0⟩ := by
  rw [stepOne_velocity, desiredRaw_fishEdge 0,
    dds_axis 0 0.9 (by norm_num) (by norm_num)]
  have hn : vecNormalize fishEdge.velocity = ⟨1, 0, 0⟩ := by
    show vecNormalize ⟨1, 0, 0⟩ = ⟨1, 0, 0⟩
    exact normalize_e1
  rw [hn]
  show vecScale (slerp ⟨1, 0, 0⟩ ⟨1, 0, 0⟩ (min 1 (cfgA.turn_rate * (1 / 2)))) 1
    = ⟨1, 0, 0⟩
  rw [slerp_same vecLength_e1]
  ext <;> simp [vecScale]

theorem stepOne_fishNear_velocity :
    (stepOne cfgA uHalf (1 / 5) (centroid [fishNear]) [fishNear] 0 fishNear 0).1.velocity
      = ⟨1, 0, 0⟩ := by
  rw [stepOne_velocity, desiredRaw_fishNear 0,
    dds_axis 0 0.91 (by norm_num) (by norm_num)]
  have hn : vecNormalize fishNear.velocity = ⟨1, 0, 0⟩ := by
    show vecNormalize ⟨1, 0, 0⟩ = ⟨1, 0, 0⟩
    exact normalize_e1
  rw [hn]
  show vecScale (slerp ⟨1, 0, 0⟩ ⟨1, 0, 0⟩ (min 1 (cfgA.turn_rate * (1 / 5)))) 1
    = ⟨1, 0, 0⟩
  rw [slerp_same vecLength_e1]
  ext <;> simp [vecScale]

theorem stepOne_fishStill_velocity :
    (stepOne cfgA uZeroHalf (1 / 3) (centroid [fishStill]) [fishStill] 0 fishStill 0).1.velocity
      = ⟨1 / 2, 0, 0⟩ := by
  rw [stepOne_velocity, desiredRaw_fishStill 0]
  have hdds : desiredDirSpeed cfgA uZeroHalf 0 ⟨0, 0, 0⟩ = (⟨1, 0, 0⟩, 1, 2) := by
    simp only [desiredDirSpeed, vecLength_zeroVec]
    rw [if_pos (by norm_num)]
    show ((randomDirection uZeroHalf 0).1, cfgA.min_speed, (randomDirection uZeroHalf 0).2)
      = (⟨1, 0, 0⟩, 1, 2)
    rw [randDir_uZeroHalf]
    rfl
  rw [hdds]
  have hn : vecNormalize fishStill.velocity = ⟨0, 0, 0⟩ := by
    show vecNormalize ⟨0, 0, 0⟩ = ⟨0, 0, 0⟩
    exact vecNormalize_zeroVec
  rw [hn]
  have htt : min 1 (cfgA.turn_rate * (1 / 3)) = 1 / 3 := by
    show min 1 ((1 : ℝ) * (1 / 3)) = 1 / 3
    norm_num
  show vecScale (slerp ⟨0, 0, 0⟩ ⟨1, 0, 0⟩ (min 1 (cfgA.turn_rate * (1 / 3)))) 1
    = ⟨1 / 2, 0, 0⟩
  rw [htt, slerp_still]
  ext <;> simp [vecScale]

end Aquarium

namespace PySim

open Aquarium

theorem pStepList_nil (tank : Vec3) (u : ℕ → ℝ) (dt time : ℝ) (k : ℕ) :
    pStepList tank u dt time [] k = ([], k) := rfl

theorem pStepList_cons (tank : Vec3) (u : ℕ → ℝ) (dt time : ℝ) (f : PFish)
    (rest : List PFish) (k : ℕ) :
    pStepList tank u dt time (f :: rest) k
      = ((pStepOne tank u dt time f k).1 ::
          (pStepList tank u dt time rest (pStepOne tank u dt time f k).2).1,
         (pStepList tank u dt time rest (pStepOne tank u dt time f k).2).2) := rfl

theorem pStep_fish (u : ℕ → ℝ) (dt : ℝ) (s : PSim) :
    (pStep u dt s).fish = (pStepList s.tank_size u dt s.time s.fish s.k).1 := rfl

theorem pStepOne_position_x (tank : Vec3) (u : ℕ → ℝ) (dt time : ℝ)
    (fish : PFish) (k : ℕ) :
    (pStepOne tank u dt time fish k).1.position.x
      = (clampAxis (tank.x / 2)
          (fish.position.x + (pVel2 u k dt time fish).x * dt)
          (pVel2 u k dt time fish).x).1 := rfl

theorem pStepOne_velocity_x (tank : Vec3) (u : ℕ → ℝ) (dt time : ℝ)
    (fish : PFish) (k : ℕ) :
    (pStepOne tank u dt time fish k).1.velocity.x
      = (clampAxis (tank.x / 2)
          (fish.position.x + (pVel2 u k dt time fish).x * dt)
          (pVel2 u k dt time fish).x).2 := rfl

theorem pSpeed_lb (u : ℕ → ℝ) (k : ℕ) (dt time : ℝ) (fish : PFish) :
    0.05 ≤ pSpeed u k dt time fish :=
  le_min (le_max_right _ _) (by norm_num)

theorem pSpeed_pos (u : ℕ → ℝ) (k : ℕ) (dt time : ℝ) (fish : PFish) :
    0 < pSpeed u k dt time fish :=
  lt_of_lt_of_le (by norm_num) (pSpeed_lb u k dt time fish)

end PySim

namespace Aquarium

/-- C4 counterexample: constructing a `GoldfishSimulator` with the invalid
configuration `fish_count = -1` does not fail; it returns normally with an
empty flock (the source performs no validation), and stepping the result also
returns normally. -/
theorem c4_no_validation_cex :
    (goldfishInit cfgBad uHalf).fish = [] ∧
      step cfgBad uHalf 1 (goldfishInit cfgBad uHalf) = goldfishInit cfgBad uHalf := by
  have h : (goldfishInit cfgBad uHalf).fish = [] := rfl
  exact ⟨h, step_empty cfgBad uHalf 1 _ h⟩

/-- C4 (amended): construction never rejects any configuration; it always
returns a simulator with `max fish_count 0` agents (`range` of a negative
count is empty), and `step` is total, preserving the agent count, for every
configuration, valid or not. -/
theorem c4_construction_total (cfg : Config) (u : ℕ → ℝ) :
    (goldfishInit cfg u).fish.length = cfg.fish_count.toNat ∧
      ∀ (dt : ℝ) (s : SimState), (step cfg u dt s).fish.length = s.fish.length := by
  constructor
  · exact spawnMany_length cfg u cfg.fish_count.toNat 0
  · intro dt s
    cases s with
    | mk fs k0 =>
      cases fs with
      | nil => rfl
      | cons f rest =>
        rw [step_cons]
        exact stepAgents_length cfg u dt (centroid (f :: rest)) (f :: rest)
          (f :: rest) 0 k0

/-- C5: determinism as two-run equality.  Two simulators built from equal
configurations and equal seed streams (a fixed seed reproduces the stream of
the injected random source) and stepped through equal `dt` sequences have
equal `states()` snapshots; all randomness flows through the single injected
stream, and `step` has no other input. -/
theorem c5_determinism (cfg1 cfg2 : Config) (u1 u2 : ℕ → ℝ)
    (dts1 dts2 : List ℝ) (hcfg : cfg1 = cfg2) (hu : u1 = u2)
    (hdts : dts1 = dts2) :
    statesAfter cfg1 u1 dts1 = statesAfter cfg2 u2 dts2 := by
  rw [hcfg, hu, hdts]

/-- C5 witness: the determinism theorem applied at a concrete configuration,
stream and step sequence. -/
theorem c5_determinism_witness :
    cfgA = cfgA ∧ uHalf = uHalf ∧ ([1] : List ℝ) = [1] ∧
      statesAfter cfgA uHalf [1] = statesAfter cfgA uHalf [1] :=
  ⟨rfl, rfl, rfl, c5_determinism cfgA cfgA uHalf uHalf [1] [1] rfl rfl rfl⟩

/-- C6: the tick is synchronous.  `step` preserves the agent count, and the
`i`-th post-step agent is `stepOne` applied to the `i`-th pre-step agent, the
pre-step flock snapshot and the centroid of the pre-step positions (computed
once), at some random-stream cursor; no agent reads an updated neighbor, and
the collection is replaced wholesale when every update is done. -/
theorem c6_tick_synchronous (cfg : Config) (u : ℕ → ℝ) (dt : ℝ) (s : SimState) :
    (step cfg u dt s).fish.length = s.fish.length ∧
      ∀ i (hi : i < s.fish.length), ∃ k2,
        (step cfg u dt s).fish.get? i
          = some ((stepOne cfg u dt (centroid s.fish) s.fish i
              (s.fish.get ⟨i, hi⟩) k2).1) := by
  cases s with
  | mk fs k0 =>
    cases fs with
    | nil => exact ⟨rfl, fun i hi => absurd hi (by simp)⟩
    | cons f rest =>
      constructor
      · rw [step_cons]
        exact stepAgents_length cfg u dt (centroid (f :: rest)) (f :: rest)
          (f :: rest) 0 k0
      · intro i hi
        obtain ⟨k2, hk2⟩ := get_stepAgents cfg u dt (centroid (f :: rest))
          (f :: rest) (f :: rest) 0 k0 i hi
        refine ⟨k2, ?_⟩
        rw [step_cons]
        show (stepAgents cfg u dt (centroid (f :: rest)) (f :: rest)
          (f :: rest) 0 k0).1.get? i = _
        rw [hk2]
        simp

/-- C6 witness: the synchronity theorem applied to a singleton flock at
index 0. -/
theorem c6_tick_synchronous_witness :
    ∃ k2, (step cfgA uHalf 1 ⟨[fishRight], 0⟩).fish.get? 0
      = some ((stepOne cfgA uHalf 1 (centroid [fishRight]) [fishRight] 0
          ([fishRight].get ⟨0, by simp⟩) k2).1) :=
  (c6_tick_synchronous cfgA uHalf 1 ⟨[fishRight], 0⟩).2 0 (by simp)

/-- C8 counterexample: for the antipodal unit vectors `(1,0,0)` and
`(-1,0,0)` the claimed identity `slerp(a, b, 0) = a` fails in exact real
arithmetic: `theta = arccos(-1) = pi`, the `sin(theta)` denominator is
exactly 0, and the result degenerates to the zero vector instead of `a`. -/
theorem c8_antipodal_cex :
    vecLength ⟨1, 0, 0⟩ = 1 ∧ vecLength ⟨-1, 0, 0⟩ = 1 ∧
      slerp ⟨1, 0, 0⟩ ⟨-1, 0, 0⟩ 0 ≠ ⟨1, 0, 0⟩ := by
  have h1 : vecLength ⟨1, 0, 0⟩ = 1 := vecLength_e1
  have h2 : vecLength (⟨-1, 0, 0⟩ : Vec3) = 1 := by
    rw [vecLength_axis]; norm_num
  refine ⟨h1, h2, ?_⟩
  have hdot : vecDot ⟨1, 0, 0⟩ ⟨-1, 0, 0⟩ = -1 := by simp [vecDot]
  have hclamp : max (-1 : ℝ) (min 1 (vecDot ⟨1, 0, 0⟩ ⟨-1, 0, 0⟩)) = -1 := by
    rw [hdot]; norm_num
  have hs : slerp ⟨1, 0, 0⟩ ⟨-1, 0, 0⟩ 0 = ⟨0, 0, 0⟩ := by
    simp only [slerp, hclamp]
    rw [if_neg (by norm_num), Real.arccos_neg_one, Real.sin_pi]
    ext <;> simp [vecAdd, vecScale]
  rw [hs]
  intro hcontra
  have hx := congrArg Vec3.x hcontra
  norm_num at hx

/-- C8 (amended): `slerp(a, a, t) = a` holds for every unit vector `a` and
every `t`, and the endpoint identities `slerp(a, b, 0) = a`,
`slerp(a, b, 1) = b` hold for all unit `a`, `b` that are not exactly
antipodal (`dot(a, b) = -1` makes the `sin(theta)` denominator `sin(pi) = 0`
in exact arithmetic). -/
theorem c8_slerp_identities (a b : Vec3) (t : ℝ) (ha : vecLength a = 1)
    (hb : vecLength b = 1) :
    slerp a a t = a ∧
      (vecDot a b ≠ -1 → slerp a b 0 = a ∧ slerp a b 1 = b) :=
  ⟨slerp_same ha t, fun h => ⟨slerp_zero ha hb h, slerp_one ha hb h⟩⟩

/-- C8 witness: the identities evaluated at the orthogonal unit pair
`(1,0,0)`, `(0,1,0)` and `t = 1/2`. -/
theorem c8_slerp_identities_witness :
    vecLength ⟨1, 0, 0⟩ = 1 ∧ vecLength ⟨0, 1, 0⟩ = 1 ∧
      vecDot ⟨1, 0, 0⟩ ⟨0, 1, 0⟩ ≠ -1 ∧
      slerp ⟨1, 0, 0⟩ ⟨1, 0, 0⟩ (1 / 2) = ⟨1, 0, 0⟩ ∧
      slerp ⟨1, 0, 0⟩ ⟨0, 1, 0⟩ 0 = ⟨1, 0, 0⟩ ∧
      slerp ⟨1, 0, 0⟩ ⟨0, 1, 0⟩ 1 = ⟨0, 1, 0⟩ := by
  have ha : vecLength ⟨1, 0, 0⟩ = 1 := vecLength_e1
  have hb : vecLength (⟨0, 1, 0⟩ : Vec3) = 1 := by
    simp only [vecLength]
    rw [show (0 : ℝ) * 0 + 1 * 1 + 0 * 0 = 1 by ring, Real.sqrt_one]
  have hd : vecDot ⟨1, 0, 0⟩ ⟨0, 1, 0⟩ ≠ -1 := by
    simp [vecDot]
  obtain ⟨w1, w2⟩ := c8_slerp_identities ⟨1, 0, 0⟩ ⟨0, 1, 0⟩ (1 / 2) ha hb
  obtain ⟨w3, w4⟩ := w2 hd
  exact ⟨ha, hb, hd, w1, w3, w4⟩

/-- C9: `_vec_normalize` of the zero vector is the zero vector, and for every
input the division is guarded: either the length-zero branch returns the zero
vector, or the length is nonzero and each component is divided by that
nonzero length; the function is total (never raises). -/
theorem c9_normalize_safe :
    vecNormalize ⟨0, 0, 0⟩ = ⟨0, 0, 0⟩ ∧
      ∀ v : Vec3, (vecLength v = 0 ∧ vecNormalize v = ⟨0, 0, 0⟩) ∨
        (vecLength v ≠ 0 ∧ vecNormalize v
          = ⟨v.x / vecLength v, v.y / vecLength v, v.z / vecLength v⟩) := by
  refine ⟨vecNormalize_zeroVec, fun v => ?_⟩
  by_cases h : vecLength v = 0
  · exact Or.inl ⟨h, by simp only [vecNormalize, if_pos h]⟩
  · exact Or.inr ⟨h, by simp only [vecNormalize, if_neg h]⟩

/-- C10: `step(dt)` on a simulator whose agent list is empty returns before
the centroid division by the agent count and leaves the whole simulator state
(agents and random cursor) unchanged. -/
theorem c10_empty_step (cfg : Config) (u : ℕ → ℝ) (dt : ℝ) (s : SimState)
    (h : s.fish = []) : step cfg u dt s = s :=
  step_empty cfg u dt s h

/-- C10 witness: a simulator constructed with `fish_count = 0` has an empty
flock and stepping it is the identity. -/
theorem c10_empty_step_witness :
    (goldfishInit cfgZero uHalf).fish = [] ∧
      step cfgZero uHalf 1 (goldfishInit cfgZero uHalf)
        = goldfishInit cfgZero uHalf := by
  have h : (goldfishInit cfgZero uHalf).fish = [] := rfl
  exact ⟨h, c10_empty_step cfgZero uHalf 1 _ h⟩

end Aquarium

namespace Aquarium

/-- C1 counterexample: under the valid configuration `cfgA`
(`0 < min_speed = max_speed = 1`) and `dt = 1/3 > 0`, an agent whose pre-step
velocity is the zero vector ends the step with speed `1/2 < min_speed`: its
current direction normalizes to the zero vector, and `_slerp(0, dir, 1/3)`
scales the recovery heading by `sin(pi/6) = 1/2`. -/
theorem c1_zero_velocity_cex :
    0 < cfgA.min_speed ∧ cfgA.min_speed ≤ cfgA.max_speed ∧
      ¬ (cfgA.min_speed ≤ vecLength
          ((step cfgA uZeroHalf (1 / 3) ⟨[fishStill], 0⟩).fish.headI.velocity)) := by
  refine ⟨by norm_num [cfgA], by norm_num [cfgA], ?_⟩
  rw [step_single_eval]
  show ¬ (cfgA.min_speed ≤ vecLength
    ((stepOne cfgA uZeroHalf (1 / 3) (centroid [fishStill]) [fishStill] 0
      fishStill 0).1.velocity))
  rw [stepOne_fishStill_velocity, vecLength_axis,
    show |(1 / 2 : ℝ)| = 1 / 2 from abs_of_nonneg (by norm_num)]
  norm_num [cfgA]

/-- C1 (amended): after `step(dt)` every agent speed lies in
`[min_speed, max_speed]`, provided every pre-step velocity is nonzero (so the
current heading normalizes to a unit vector) and the current and desired
headings are never exactly antipodal; the zero-velocity case fails (see the
counterexample), because `_slerp` from the zero vector shrinks the heading by
`sin(min(1, turn_rate * dt) * pi / 2)`. -/
theorem c1_speed_bounds (cfg : Config) (u : ℕ → ℝ) (dt : ℝ) (s : SimState)
    (hmin : 0 < cfg.min_speed) (hle : cfg.min_speed ≤ cfg.max_speed)
    (ht : 0 ≤ cfg.turn_rate * dt) (hu : ∀ n, 0 ≤ u n ∧ u n ≤ 1)
    (hv : ∀ f ∈ s.fish, vecLength f.velocity ≠ 0)
    (hnot : ∀ f ∈ s.fish, ∀ idx k, vecDot (vecNormalize f.velocity)
        (desiredDirSpeed cfg u k (desiredRaw cfg (centroid s.fish) s.fish idx f)).1
        ≠ -1) :
    ∀ g ∈ (step cfg u dt s).fish,
      cfg.min_speed ≤ vecLength g.velocity ∧
        vecLength g.velocity ≤ cfg.max_speed := by
  intro g hg
  cases s with
  | mk fs k0 =>
    cases fs with
    | nil =>
      rw [step_empty cfg u dt _ rfl] at hg
      exact absurd hg (List.not_mem_nil g)
    | cons f rest =>
      rw [step_cons] at hg
      obtain ⟨f2, hf2, i, k2, he⟩ := mem_stepAgents cfg u dt
        (centroid (f :: rest)) (f :: rest) (f :: rest) 0 k0 g hg
      rw [he]
      exact stepOne_speed cfg u dt (centroid (f :: rest)) (f :: rest) i f2 k2
        hmin hle ht hu (hv f2 hf2) (hnot f2 hf2 i k2)

/-- C1 witness: the bounds theorem applied to a singleton flock moving along
`+x` at unit speed under `cfgA`, evaluated at the head of the post-step
flock. -/
theorem c1_speed_bounds_witness :
    cfgA.min_speed ≤ vecLength
        ((step cfgA uHalf (1 / 2) ⟨[fishRight], 0⟩).fish.headI.velocity) ∧
      vecLength ((step cfgA uHalf (1 / 2) ⟨[fishRight], 0⟩).fish.headI.velocity)
        ≤ cfgA.max_speed := by
  have hmem : (step cfgA uHalf (1 / 2) ⟨[fishRight], 0⟩).fish.headI
      ∈ (step cfgA uHalf (1 / 2) ⟨[fishRight], 0⟩).fish := by
    rw [step_single_eval]
    simp
  refine c1_speed_bounds cfgA uHalf (1 / 2) ⟨[fishRight], 0⟩
    (by norm_num [cfgA]) (by norm_num [cfgA])
    (by norm_num [cfgA]) (fun n => ⟨by norm_num [uHalf], by norm_num [uHalf]⟩)
    ?_ ?_ _ hmem
  · intro f hf
    rw [List.mem_singleton.mp hf]
    show vecLength ⟨1, 0, 0⟩ ≠ 0
    rw [vecLength_e1]
    norm_num
  · intro f hf idx k
    rw [List.mem_singleton.mp hf]
    show vecDot (vecNormalize fishRight.velocity)
      (desiredDirSpeed cfgA uHalf k
        (desiredRaw cfgA (centroid [fishRight]) [fishRight] idx fishRight)).1 ≠ -1
    rw [desiredRaw_fishRight idx, dds_axis k 1 (by norm_num) le_rfl]
    have hn : vecNormalize fishRight.velocity = ⟨1, 0, 0⟩ := by
      show vecNormalize ⟨1, 0, 0⟩ = ⟨1, 0, 0⟩
      exact normalize_e1
    rw [hn]
    show vecDot ⟨1, 0, 0⟩ ⟨1, 0, 0⟩ ≠ -1
    norm_num [vecDot]

/-- C2 counterexample: under `cfgA` and `dt = 1/5 > 0`, an agent that starts
strictly inside the tank at `(0.9, 0, 0)` moving outward at unit speed ends
the step at `x = 1.1 > tank_x / 2 = 1`: `step` never clamps positions, and
the wall handling only reverses the desired direction once the agent is
already beyond the limit. -/
theorem c2_overshoot_cex :
    |fishNear.position.x| ≤ cfgA.tank.x * 0.5 ∧
      |fishNear.position.y| ≤ cfgA.tank.y * 0.5 ∧
      |fishNear.position.z| ≤ cfgA.tank.z * 0.5 ∧
      ¬ ((step cfgA uHalf (1 / 5) ⟨[fishNear], 0⟩).fish.headI.position.x
          ≤ cfgA.tank.x * 0.5) := by
  refine ⟨by norm_num [fishNear, cfgA, abs_le], by norm_num [fishNear, cfgA, abs_le],
    by norm_num [fishNear, cfgA, abs_le], ?_⟩
  rw [step_single_eval]
  show ¬ ((stepOne cfgA uHalf (1 / 5) (centroid [fishNear]) [fishNear] 0
    fishNear 0).1.position.x ≤ cfgA.tank.x * 0.5)
  rw [stepOne_position, stepOne_fishNear_velocity]
  show ¬ (fishNear.position.x + 1 * (1 / 5) ≤ cfgA.tank.x * 0.5)
  norm_num [fishNear, cfgA]

/-- C2 (amended): containment is soft.  For agents whose pre-step position
satisfies the per-axis bound `|position_i| <= tank_i / 2`, the post-step
position can exceed the bound, but by at most one displacement: for each
axis, `|new_position_i| <= tank_i / 2 + |new_velocity| * dt`. -/
theorem c2_soft_containment (cfg : Config) (u : ℕ → ℝ) (dt : ℝ) (s : SimState)
    (hdt : 0 ≤ dt)
    (hin : ∀ f ∈ s.fish, |f.position.x| ≤ cfg.tank.x * 0.5 ∧
        |f.position.y| ≤ cfg.tank.y * 0.5 ∧ |f.position.z| ≤ cfg.tank.z * 0.5) :
    ∀ g ∈ (step cfg u dt s).fish,
      |g.position.x| ≤ cfg.tank.x * 0.5 + vecLength g.velocity * dt ∧
        |g.position.y| ≤ cfg.tank.y * 0.5 + vecLength g.velocity * dt ∧
        |g.position.z| ≤ cfg.tank.z * 0.5 + vecLength g.velocity * dt := by
  intro g hg
  cases s with
  | mk fs k0 =>
    cases fs with
    | nil =>
      rw [step_empty cfg u dt _ rfl] at hg
      exact absurd hg (List.not_mem_nil g)
    | cons f rest =>
      rw [step_cons] at hg
      obtain ⟨f2, hf2, i, k2, he⟩ := mem_stepAgents cfg u dt
        (centroid (f :: rest)) (f :: rest) (f :: rest) 0 k0 g hg
      obtain ⟨hx, hy, hz⟩ := hin f2 hf2
      rw [he]
      rw [stepOne_position]
      refine ⟨?_, ?_, ?_⟩
      · show |f2.position.x +
          (stepOne cfg u dt (centroid (f :: rest)) (f :: rest) i f2 k2).1.velocity.x * dt|
          ≤ cfg.tank.x * 0.5 + _ * dt
        calc |f2.position.x + _ * dt| ≤ |f2.position.x| + |_ * dt| := abs_add _ _
          _ ≤ cfg.tank.x * 0.5 + vecLength
              ((stepOne cfg u dt (centroid (f :: rest)) (f :: rest) i f2 k2).1.velocity) * dt := by
            apply add_le_add hx
            rw [abs_mul, abs_of_nonneg hdt]
            exact mul_le_mul_of_nonneg_right (abs_x_le_length _) hdt
      · show |f2.position.y +
          (stepOne cfg u dt (centroid (f :: rest)) (f :: rest) i f2 k2).1.velocity.y * dt|
          ≤ cfg.tank.y * 0.5 + _ * dt
        calc |f2.position.y + _ * dt| ≤ |f2.position.y| + |_ * dt| := abs_add _ _
          _ ≤ cfg.tank.y * 0.5 + vecLength
              ((stepOne cfg u dt (centroid (f :: rest)) (f :: rest) i f2 k2).1.velocity) * dt := by
            apply add_le_add hy
            rw [abs_mul, abs_of_nonneg hdt]
            exact mul_le_mul_of_nonneg_right (abs_y_le_length _) hdt
      · show |f2.position.z +
          (stepOne cfg u dt (centroid (f :: rest)) (f :: rest) i f2 k2).1.velocity.z * dt|
          ≤ cfg.tank.z * 0.5 + _ * dt
        calc |f2.position.z + _ * dt| ≤ |f2.position.z| + |_ * dt| := abs_add _ _
          _ ≤ cfg.tank.z * 0.5 + vecLength
              ((stepOne cfg u dt (centroid (f :: rest)) (f :: rest) i f2 k2).1.velocity) * dt := by
            apply add_le_add hz
            rw [abs_mul, abs_of_nonneg hdt]
            exact mul_le_mul_of_nonneg_right (abs_z_le_length _) hdt

/-- C2 witness: the soft-containment bound applied to a singleton flock at
the tank center, evaluated at the head of the post-step flock. -/
theorem c2_soft_containment_witness :
    |(step cfgA uHalf (1 / 2) ⟨[fishRight], 0⟩).fish.headI.position.x|
        ≤ cfgA.tank.x * 0.5 + vecLength
          ((step cfgA uHalf (1 / 2) ⟨[fishRight], 0⟩).fish.headI.velocity) * (1 / 2) ∧
      |(step cfgA uHalf (1 / 2) ⟨[fishRight], 0⟩).fish.headI.position.y|
        ≤ cfgA.tank.y * 0.5 + vecLength
          ((step cfgA uHalf (1 / 2) ⟨[fishRight], 0⟩).fish.headI.velocity) * (1 / 2) ∧
      |(step cfgA uHalf (1 / 2) ⟨[fishRight], 0⟩).fish.headI.position.z|
        ≤ cfgA.tank.z * 0.5 + vecLength
          ((step cfgA uHalf (1 / 2) ⟨[fishRight], 0⟩).fish.headI.velocity) * (1 / 2) := by
  have hmem : (step cfgA uHalf (1 / 2) ⟨[fishRight], 0⟩).fish.headI
      ∈ (step cfgA uHalf (1 / 2) ⟨[fishRight], 0⟩).fish := by
    rw [step_single_eval]
    simp
  refine c2_soft_containment cfgA uHalf (1 / 2) ⟨[fishRight], 0⟩ (by norm_num)
    ?_ _ hmem
  intro f hf
  rw [List.mem_singleton.mp hf]
  refine ⟨?_, ?_, ?_⟩ <;>
    · show |(0 : ℝ)| ≤ _
      norm_num [cfgA]

end Aquarium

namespace Aquarium

/-- C3 counterexample: in `GoldfishSimulator` (cfgA, `hx = 1`), a single
agent placed exactly on the `+x` boundary with outward velocity `(1, 0, 0)`
is neither clamped nor reflected after one `step(1/2)`: the wall comparisons
are strict (`pos > limit` is false at `pos = limit`), so its `x` position
becomes `1.5 /= hx` and its `x` velocity stays positive. -/
theorem c3_goldfish_no_bounce :
    (step cfgA uHalf (1 / 2) ⟨[fishEdge], 0⟩).fish.headI.position.x
        ≠ cfgA.tank.x * 0.5 ∧
      ¬ ((step cfgA uHalf (1 / 2) ⟨[fishEdge], 0⟩).fish.headI.velocity.x < 0) := by
  have hl : (step cfgA uHalf (1 / 2) ⟨[fishEdge], 0⟩).fish
      = [(stepOne cfgA uHalf (1 / 2) (centroid [fishEdge]) [fishEdge] 0
          fishEdge 0).1] := step_single_eval cfgA uHalf (1 / 2) fishEdge 0
  rw [hl]
  constructor
  · show (stepOne cfgA uHalf (1 / 2) (centroid [fishEdge]) [fishEdge] 0
      fishEdge 0).1.position.x ≠ cfgA.tank.x * 0.5
    rw [stepOne_position, stepOne_fishEdge_velocity]
    show fishEdge.position.x + 1 * (1 / 2) ≠ cfgA.tank.x * 0.5
    norm_num [fishEdge, cfgA]
  · show ¬ ((stepOne cfgA uHalf (1 / 2) (centroid [fishEdge]) [fishEdge] 0
      fishEdge 0).1.velocity.x < 0)
    rw [stepOne_fishEdge_velocity]
    norm_num

end Aquarium

namespace PySim

open Aquarium

/-- C3 (amended): the boundary-bounce scenario holds for the `python_sim`
`AquariumSimulation.step`, which does clamp and reflect: a single agent on
the `+x` boundary with velocity `(v, 0, 0)`, `v > 0`, whose `x` velocity
stays positive after the wander-force integration and rescale and satisfies
`0.85 * (v + force_x * dt) <= v`, ends the step with `position.x` equal to
the half-extent and `velocity.x` negative with magnitude strictly below
`v`. -/
theorem c3_pysim_bounce (u : ℕ → ℝ) (s : PSim) (fish : PFish) (v dt : ℝ)
    (hfish : s.fish = [fish])
    (hpos : fish.position = ⟨s.tank_size.x / 2, 0, 0⟩)
    (hvel : fish.velocity = ⟨v, 0, 0⟩)
    (hdt : 0 < dt)
    (hx1 : 0 < v + (wanderForce u s.k s.time fish).1.x * dt)
    (hx2 : 0.85 * (v + (wanderForce u s.k s.time fish).1.x * dt) ≤ v) :
    (pStep u dt s).fish.headI.position.x = s.tank_size.x / 2 ∧
      (pStep u dt s).fish.headI.velocity.x < 0 ∧
      |(pStep u dt s).fish.headI.velocity.x| < v := by
  have hlist : (pStep u dt s).fish
      = [(pStepOne s.tank_size u dt s.time fish s.k).1] := by
    rw [pStep_fish, hfish]
    simp only [pStepList_cons, pStepList_nil]
  rw [hlist]
  have hsppos : 0 < pSpeed u s.k dt s.time fish := pSpeed_pos u s.k dt s.time fish
  have hfrac : 0 < 1 / (pSpeed u s.k dt s.time fish + 1e-6) :=
    one_div_pos.mpr (by linarith)
  have hv1x : (pVel1 u s.k dt s.time fish).x
      = v + (wanderForce u s.k s.time fish).1.x * dt := by
    show fish.velocity.x + (wanderForce u s.k s.time fish).1.x * dt = _
    rw [hvel]
  have hv2x : (pVel2 u s.k dt s.time fish).x
      = (v + (wanderForce u s.k s.time fish).1.x * dt)
        * (1 / (pSpeed u s.k dt s.time fish + 1e-6)) * pSpeed u s.k dt s.time fish := by
    show (pVel1 u s.k dt s.time fish).x
        * (1 / (pSpeed u s.k dt s.time fish + 1e-6)) * pSpeed u s.k dt s.time fish = _
    rw [hv1x]
  have hv2pos : 0 < (pVel2 u s.k dt s.time fish).x := by
    rw [hv2x]
    exact mul_pos (mul_pos hx1 hfrac) hsppos
  have hratio : (1 / (pSpeed u s.k dt s.time fish + 1e-6)) * pSpeed u s.k dt s.time fish < 1 := by
    rw [show (1 / (pSpeed u s.k dt s.time fish + 1e-6)) * pSpeed u s.k dt s.time fish
        = pSpeed u s.k dt s.time fish / (pSpeed u s.k dt s.time fish + 1e-6) by ring]
    exact (div_lt_one (by linarith)).mpr (by linarith)
  have hv2lt : (pVel2 u s.k dt s.time fish).x
      < v + (wanderForce u s.k s.time fish).1.x * dt := by
    rw [hv2x, mul_assoc]
    calc (v + (wanderForce u s.k s.time fish).1.x * dt)
        * ((1 / (pSpeed u s.k dt s.time fish + 1e-6)) * pSpeed u s.k dt s.time fish)
        < (v + (wanderForce u s.k s.time fish).1.x * dt) * 1 :=
          mul_lt_mul_of_pos_left hratio hx1
      _ = v + (wanderForce u s.k s.time fish).1.x * dt := mul_one _
  have hp1 : fish.position.x + (pVel2 u s.k dt s.time fish).x * dt
      > s.tank_size.x / 2 := by
    rw [show fish.position.x = s.tank_size.x / 2 by rw [hpos]]
    nlinarith [mul_pos hv2pos hdt]
  have hcl : clampAxis (s.tank_size.x / 2)
      (fish.position.x + (pVel2 u s.k dt s.time fish).x * dt)
      (pVel2 u s.k dt s.time fish).x
      = (s.tank_size.x / 2, (pVel2 u s.k dt s.time fish).x * (-0.85)) := by
    unfold clampAxis
    rw [if_pos hp1]
  refine ⟨?_, ?_, ?_⟩
  · show (pStepOne s.tank_size u dt s.time fish s.k).1.position.x = _
    rw [pStepOne_position_x, hcl]
  · show (pStepOne s.tank_size u dt s.time fish s.k).1.velocity.x < 0
    rw [pStepOne_velocity_x, hcl]
    show (pVel2 u s.k dt s.time fish).x * (-0.85) < 0
    nlinarith [hv2pos]
  · show |(pStepOne s.tank_size u dt s.time fish s.k).1.velocity.x| < v
    rw [pStepOne_velocity_x, hcl]
    show |(pVel2 u s.k dt s.time fish).x * (-0.85)| < v
    rw [abs_mul, abs_of_pos hv2pos,
      show |(-0.85 : ℝ)| = 0.85 by norm_num]
    nlinarith [hv2lt, hx1, hv2pos]

/-- C3 witness: the bounce theorem evaluated for the concrete agent `pfishW`
on the `+x` wall of a half-extent-1 cube with `v = 0.3`, `dt = 1/10` and the
all-`1/2` jitter stream (zero jitter). -/
theorem c3_pysim_bounce_witness :
    (0 : ℝ) < 1 / 10 ∧
      0 < 0.3 + (wanderForce uHalf psimW.k psimW.time pfishW).1.x * (1 / 10) ∧
      0.85 * (0.3 + (wanderForce uHalf psimW.k psimW.time pfishW).1.x * (1 / 10)) ≤ 0.3 ∧
      (pStep uHalf (1 / 10) psimW).fish.headI.position.x = psimW.tank_size.x / 2 ∧
      (pStep uHalf (1 / 10) psimW).fish.headI.velocity.x < 0 ∧
      |(pStep uHalf (1 / 10) psimW).fish.headI.velocity.x| < 0.3 := by
  have hw : (wanderForce uHalf psimW.k psimW.time pfishW).1.x = -0.3 := by
    show (vecScale pfishW.position (-0.3)).x + ((uHalf psimW.k - 0.5) * 0.12) + 0 = -0.3
    norm_num [pfishW, uHalf, vecScale]
  have h1 : (0 : ℝ) < 1 / 10 := by norm_num
  have h2 : (0 : ℝ) < 0.3 + (wanderForce uHalf psimW.k psimW.time pfishW).1.x * (1 / 10) := by
    rw [hw]; norm_num
  have h3 : (0.85 : ℝ) * (0.3 + (wanderForce uHalf psimW.k psimW.time pfishW).1.x * (1 / 10)) ≤ 0.3 := by
    rw [hw]; norm_num
  obtain ⟨w1, w2, w3⟩ := c3_pysim_bounce uHalf psimW pfishW 0.3 (1 / 10) rfl
    (by ext <;> norm_num [pfishW, psimW]) rfl h1 h2 h3
  exact ⟨h1, h2, h3, w1, w2, w3⟩

end PySim

namespace Aquarium

/-- C7 counterexample: for ten agents all at `(1, 0, 0)` with zero velocity
(coincident but away from the tank center), the recovery branch is not taken:
the recentering term makes the raw desired vector `(-0.1, 0, 0)` with length
`0.1 >= 1e-6`, so the head agent keeps the deterministic normalized heading
and no fresh random draw is consumed (the stream cursor is unchanged). -/
theorem c7_offcenter_cex :
    ¬ (vecLength (desiredRaw cfg7 (centroid fs10) fs10 0 fs10.headI) < 1e-6) ∧
      (desiredDirSpeed cfg7 uHalf 0
        (desiredRaw cfg7 (centroid fs10) fs10 0 fs10.headI)).2.2 = 0 := by
  have hhead : fs10.headI = fishC7 := by
    show (List.replicate 10 fishC7).headI = fishC7
    rfl
  rw [hhead, desiredRaw_fishC7 0]
  have hlen : vecLength ⟨-0.1, 0, 0⟩ = 0.1 := by
    rw [vecLength_axis]; norm_num
  constructor
  · rw [hlen]; norm_num
  · simp only [desiredDirSpeed, hlen]
    rw [if_neg (by norm_num)]

/-- C7 (amended): for a flock of coincident agents with zero velocity the
separation sum is exactly zero (coincident neighbors are excluded, no
division by a near-zero distance), and every agent takes the stall-recovery
branch — desired heading freshly sampled (a unit vector) and desired speed
`min_speed` — provided the common point lies within `1e-5` of the tank
center (otherwise the recentering term alone exceeds the `1e-6` stall
threshold; see the counterexample) and inside the tank below the surface
band. -/
theorem c7_coincident_recovery (cfg : Config) (u : ℕ → ℝ)
    (fs : List FishState) (p : Vec3) (hne : fs ≠ [])
    (hpos : ∀ f ∈ fs, f.position = p)
    (hvel : ∀ f ∈ fs, f.velocity = ⟨0, 0, 0⟩)
    (hsmall : vecLength p < 1e-5)
    (hin_x : |p.x| ≤ cfg.tank.x * 0.5) (hin_y : |p.y| ≤ cfg.tank.y * 0.5)
    (hin_z : |p.z| ≤ cfg.tank.z * 0.5) (hsurf : p.z ≤ cfg.tank.z * 0.4)
    (hu : ∀ n, 0 ≤ u n ∧ u n ≤ 1) :
    ∀ f ∈ fs, ∀ idx k,
      separationVec cfg fs idx f.position = ⟨0, 0, 0⟩ ∧
      desiredDirSpeed cfg u k (desiredRaw cfg (centroid fs) fs idx f)
        = ((randomDirection u k).1, cfg.min_speed, k + 2) ∧
      vecLength (randomDirection u k).1 = 1 := by
  intro f hf idx k
  have hsep : separationVec cfg fs idx f.position = ⟨0, 0, 0⟩ := by
    rw [hpos f hf]
    exact separationVec_coincident cfg idx p fs hpos
  have hdr : desiredRaw cfg (centroid fs) fs idx f = vecScale p (-0.1) := by
    rw [desiredRaw_coincident cfg fs p idx f (hpos f hf) hpos hne]
    rw [applyBounds_inside cfg _ hin_x hin_y hin_z, applySurface_below cfg _ hsurf]
    rw [hvel f hf]
    ext <;> simp [vecScale]
  have hlen : vecLength (vecScale p (-0.1)) < 1e-6 := by
    rw [vecLength_scale, show |(-0.1 : ℝ)| = 0.1 by norm_num]
    nlinarith [vecLength_nonneg p]
  refine ⟨hsep, ?_, randomDirection_length u k hu⟩
  rw [hdr]
  simp only [desiredDirSpeed]
  rw [if_pos hlen]
  rfl

/-- C7 witness: the recovery theorem applied to a singleton coincident flock
at the exact tank center under `cfgA`, at index 0 and cursor 5. -/
theorem c7_coincident_recovery_witness :
    separationVec cfgA [fishStill] 0 fishStill.position = ⟨0, 0, 0⟩ ∧
      desiredDirSpeed cfgA uHalf 5
        (desiredRaw cfgA (centroid [fishStill]) [fishStill] 0 fishStill)
        = ((randomDirection uHalf 5).1, cfgA.min_speed, 5 + 2) ∧
      vecLength (randomDirection uHalf 5).1 = 1 := by
  refine c7_coincident_recovery cfgA uHalf [fishStill] ⟨0, 0, 0⟩ (by simp)
    (fun f hf => by rw [List.mem_singleton.mp hf]; rfl)
    (fun f hf => by rw [List.mem_singleton.mp hf]; rfl)
    (by rw [vecLength_zeroVec]; norm_num)
    (by norm_num [cfgA]) (by norm_num [cfgA]) (by norm_num [cfgA])
    (by norm_num [cfgA])
    (fun n => ⟨by norm_num [uHalf], by norm_num [uHalf]⟩)
    fishStill (by simp) 0 5

end Aquarium
